import Mathlib

/-
Verification of the stock ledger and sale engine of the gestion_stock_api
repository (Django, apps/stocks and apps/ventes).

Shallow embedding conventions:
- Django Decimal amounts (2 decimal places, exact arithmetic, no division
  anywhere in the modelled code) are embedded as Int.
- IntegerField quantities are embedded as Int.
- A Stock row is identified by its unique (produit, magasin) pair
  (unique_together in apps/stocks/models.py); the table is embedded as a
  function Nat -> Nat -> Option Stock.
- MouvementStock rows are an append-only list, newest first (the model
  ordering is descending date).
- Raising an exception inside a transaction.atomic block rolls the whole
  transaction back, so an operation is embedded as
  Etat -> Except Err Etat: on error the caller keeps the old state.
- Stock.save calls self.clean() which raises ValidationError exactly when
  quantite_reservee > quantite (apps/stocks/models.py lines 90-99); field
  validators such as MinValueValidator do NOT run on save. They do run on
  API input through DRF serializers, which is modelled by explicit guards
  in the operations that correspond to serializer-validated endpoints.
-/

namespace GestionStock

/-- The five movement kinds of MouvementStock.TYPE_MOUVEMENT_CHOICES. -/
inductive TypeMouvement where
  | ENTREE
  | SORTIE
  | TRANSFERT
  | AJUSTEMENT
  | RETOUR
deriving DecidableEq, Repr

/-- The three sale states of Vente.STATUT_CHOICES. -/
inductive Statut where
  | EN_COURS
  | VALIDEE
  | ANNULEE
deriving DecidableEq, Repr

/-- Error kinds surfaced by the modelled operations: StockInsuffisantException,
DRF/Django ValidationError (including the Stock.clean guard), and
VenteAnnuleeException. -/
inductive Err where
  | stockInsuffisant
  | validationErreur
  | venteAnnulee
deriving DecidableEq, Repr

/-- One Stock row (apps/stocks/models.py): the balance of one product in one
magasin. The identifying pair (produit, magasin) is the key of the stocks
map and is not repeated here. Timestamps are Nat. -/
structure Stock where
  quantite : Int
  reservee : Int
  lastInventory : Option Nat
deriving DecidableEq, Repr

/-- Stock.quantite_disponible. -/
def Stock.disponible (s : Stock) : Int := s.quantite - s.reservee

/-- One MouvementStock row. The stock foreign key is embedded as the
(produit, magasin) key of the stock row. -/
structure Mouvement where
  type : TypeMouvement
  quantite : Int
  avant : Int
  apres : Int
  produit : Nat
  magasin : Nat
  magasinDestination : Option Nat
  vente : Option Nat
deriving DecidableEq, Repr

/-- The persistent state the claims quantify over: the Stock table and the
MouvementStock table (newest movement first). -/
structure Etat where
  stocks : Nat → Nat → Option Stock
  mouvements : List Mouvement

/-- The empty database. -/
def etatVide : Etat := ⟨fun _ _ => none, []⟩

/-- Write (insert or overwrite) the stock row keyed (p, m). -/
def putStock (e : Etat) (p m : Nat) (s : Stock) : Etat :=
  { e with stocks := fun p' m' => if p' = p ∧ m' = m then some s else e.stocks p' m' }

/-- Stock.save (apps/stocks/models.py lines 97-99): runs clean(), which
raises ValidationError when quantite_reservee > quantite, then persists.
No other check runs on save. -/
def saveStock (e : Etat) (p m : Nat) (s : Stock) : Except Err Etat :=
  if s.reservee > s.quantite then .error .validationErreur
  else .ok (putStock e p m s)

/-- MouvementStock.objects.create: appends a movement row (validators do not
run on create, so a quantite of 0 is accepted at runtime). -/
def ajoutMouvement (e : Etat) (mv : Mouvement) : Etat :=
  { e with mouvements := mv :: e.mouvements }

/-- The quantity held at a key, when a row exists. -/
def quantiteEn (e : Etat) (p m : Nat) : Option Int :=
  (e.stocks p m).map Stock.quantite

/-- StockViewSet.create via StockCreateSerializer + perform_create
(apps/stocks/serializers.py lines 36-53, apps/stocks/views.py lines 68-91):
rejects a negative quantity (serializer field validation) and an already
existing row, otherwise creates the row and logs an ENTREE movement with
quantite_avant 0. -/
def stockCreer (p m : Nat) (q : Int) (e : Etat) : Except Err Etat := do
  if q < 0 then .error .validationErreur
  else if (e.stocks p m).isSome then .error .validationErreur
  else
    let s : Stock := ⟨q, 0, none⟩
    let e1 ← saveStock e p m s
    .ok (ajoutMouvement e1 ⟨.ENTREE, q, 0, q, p, m, none, none⟩)

/-- StockViewSet.update / partial_update via StockUpdateSerializer
(apps/stocks/serializers.py lines 56-72): fields not provided keep the
instance values, provided values must be nonnegative (serializer field
validation), validate rejects reservee > quantite, then the instance is
saved. -/
def stockModifier (p m : Nat) (objQ objR : Option Int) (e : Etat) : Except Err Etat :=
  match e.stocks p m with
  | none => .error .validationErreur
  | some s =>
    if objQ.getD 0 < 0 ∨ objR.getD 0 < 0 then .error .validationErreur
    else
      let q := objQ.getD s.quantite
      let r := objR.getD s.reservee
      if r > q then .error .validationErreur
      else saveStock e p m { s with quantite := q, reservee := r }

/-- StockViewSet.reapprovisionner (apps/stocks/views.py lines 93-149):
quantity must be at least 1 (serializer), the row is fetched or created
with quantity 0, incremented, saved, and an ENTREE movement is logged. -/
def reapprovisionner (p m : Nat) (q : Int) (e : Etat) : Except Err Etat := do
  if q < 1 then .error .validationErreur
  else
    let s0 := (e.stocks p m).getD ⟨0, 0, none⟩
    let s1 := { s0 with quantite := s0.quantite + q }
    let e1 ← saveStock e p m s1
    .ok (ajoutMouvement e1 ⟨.ENTREE, q, s0.quantite, s1.quantite, p, m, none, none⟩)

/-- StockViewSet.transferer (apps/stocks/views.py lines 151-240): quantity at
least 1 and distinct magasins (serializer), source row must exist with
enough disponible, the source is debited and a TRANSFERT movement with the
destination magasin is logged, then the destination row is fetched or
created, credited, and an ENTREE movement is logged. -/
def transferer (p src dst : Nat) (q : Int) (e : Etat) : Except Err Etat := do
  if q < 1 then .error .validationErreur
  else if src = dst then .error .validationErreur
  else
    match e.stocks p src with
    | none => .error .stockInsuffisant
    | some s =>
      if s.disponible < q then .error .stockInsuffisant
      else
        let s1 := { s with quantite := s.quantite - q }
        let e1 ← saveStock e p src s1
        let e2 := ajoutMouvement e1 ⟨.TRANSFERT, q, s.quantite, s1.quantite, p, src, some dst, none⟩
        let d0 := (e2.stocks p dst).getD ⟨0, 0, none⟩
        let d1 := { d0 with quantite := d0.quantite + q }
        let e3 ← saveStock e2 p dst d1
        .ok (ajoutMouvement e3 ⟨.ENTREE, q, d0.quantite, d1.quantite, p, dst, none, none⟩)

/-- StockViewSet.ajuster (apps/stocks/views.py lines 242-292): the stock row
must exist (serializer primary key), the new quantity must be nonnegative
(serializer), the quantity is replaced, last_inventory_date stamped, the
row saved, and an AJUSTEMENT movement with quantite = |difference| logged. -/
def ajuster (p m : Nat) (nouvelleQuantite : Int) (maintenant : Nat) (e : Etat) :
    Except Err Etat := do
  match e.stocks p m with
  | none => .error .validationErreur
  | some s =>
    if nouvelleQuantite < 0 then .error .validationErreur
    else
      let difference := nouvelleQuantite - s.quantite
      let s1 := { s with quantite := nouvelleQuantite, lastInventory := some maintenant }
      let e1 ← saveStock e p m s1
      .ok (ajoutMouvement e1
        ⟨.AJUSTEMENT, (difference.natAbs : Int), s.quantite, nouvelleQuantite, p, m, none, none⟩)

/-- One requested sale line, as validated by LigneVenteCreateSerializer
(apps/ventes/serializers.py lines 79-94): produit, quantite (min 1),
optional prix_unitaire (no bound), remise_ligne (min 0, default 0). -/
structure LigneDemande where
  produit : Nat
  quantite : Int
  prixUnitaire : Option Int
  remiseLigne : Int
deriving DecidableEq, Repr

/-- One persisted LigneVente row (apps/ventes/models.py lines 187-271). -/
structure LigneVente where
  produit : Nat
  quantite : Int
  prixUnitaire : Int
  remiseLigne : Int
deriving DecidableEq, Repr

/-- LigneVente.montant_ligne: amount of the line after line discount. -/
def montantLigne (l : LigneVente) : Int :=
  l.prixUnitaire * l.quantite - l.remiseLigne

/-- Vente.update_montant_total sums montant_ligne over the lines of the sale
(apps/ventes/models.py lines 128-131). -/
def sommeLignes (ls : List LigneVente) : Int :=
  ls.foldl (fun t l => t + montantLigne l) 0

/-- One persisted Vente row (apps/ventes/models.py). The numero_vente
generation is modelled separately (genNumero below); id stands for the
database primary key referenced by MouvementStock.vente. -/
structure Vente where
  id : Nat
  magasin : Nat
  montantTotal : Int
  montantPaye : Int
  remise : Int
  statut : Statut
  estAnnulee : Bool
  motifAnnulation : String
  lignes : List LigneVente
deriving DecidableEq, Repr

/-- Vente.montant_net: total minus the sale level discount. -/
def Vente.montantNet (v : Vente) : Int := v.montantTotal - v.remise

/-- Vente.montant_restant: total minus the paid amount. -/
def Vente.montantRestant (v : Vente) : Int := v.montantTotal - v.montantPaye

/-- Vente.est_payee: paid amount covers the total. -/
def Vente.estPayee (v : Vente) : Bool := decide (v.montantPaye ≥ v.montantTotal)

/-- The unit price used by VenteCreateSerializer.create for one line:
Python `ligne_data.get(..) or produit.prix_vente` falls back to the product
price both when no prix_unitaire was supplied and when the supplied value
is zero (Decimal 0 is falsy). prix gives the prix_vente of each product. -/
def prixEffectif (prix : Nat → Int) (l : LigneDemande) : Int :=
  match l.prixUnitaire with
  | some pu => if pu = 0 then prix l.produit else pu
  | none => prix l.produit

/-- The serializer total: sum of prixEffectif * quantite - remise_ligne over
the requested lines (apps/ventes/serializers.py lines 130-158). -/
def totalDemande (prix : Nat → Int) (ls : List LigneDemande) : Int :=
  ls.foldl (fun t l => t + (prixEffectif prix l * l.quantite - l.remiseLigne)) 0

/-- First loop of VenteCreateSerializer.create (serializers.py lines
134-166): per line, resolve the price, fetch the Stock row of (produit,
magasin) and check quantite_disponible, accumulate the total and keep the
fetched row as a snapshot. All reads happen against the same state e;
nothing is written yet. -/
def verifierLignes (prix : Nat → Int) (magasin : Nat) (e : Etat) :
    List LigneDemande → Except Err (Int × List (LigneDemande × Int × Stock))
  | [] => .ok (0, [])
  | l :: ls =>
    match e.stocks l.produit magasin with
    | none => .error .stockInsuffisant
    | some s =>
      if s.disponible < l.quantite then .error .stockInsuffisant
      else do
        let (t, reste) ← verifierLignes prix magasin e ls
        .ok ((prixEffectif prix l * l.quantite - l.remiseLigne) + t, (l, prixEffectif prix l, s) :: reste)

/-- Second loop of VenteCreateSerializer.create (serializers.py lines
184-209) together with the side effects of LigneVente.objects.create:
LigneVente.save overwrites prix_unitaire with the product price
(models.py lines 265-271) and then calls vente.update_montant_total, so
after each line the stored total is the sum of stored line amounts. The
stock row is then saved from the snapshot with quantite decreased, and a
SORTIE movement referencing the sale is logged. -/
def executerLignes (prix : Nat → Int) :
    List (LigneDemande × Int × Stock) → Etat × Vente → Except Err (Etat × Vente)
  | [], (e, v) => .ok (e, v)
  | (l, _, s) :: reste, (e, v) => do
    let e1 ← saveStock e l.produit v.magasin { s with quantite := s.quantite - l.quantite }
    executerLignes prix reste
      (ajoutMouvement e1
        ⟨.SORTIE, l.quantite, s.quantite, s.quantite - l.quantite, l.produit, v.magasin,
          none, some v.id⟩,
       { v with
          lignes := v.lignes ++ [⟨l.produit, l.quantite, prix l.produit, l.remiseLigne⟩],
          montantTotal :=
            sommeLignes (v.lignes ++ [⟨l.produit, l.quantite, prix l.produit, l.remiseLigne⟩]) })

/-- VenteCreateSerializer.create inside transaction.atomic (serializers.py
lines 124-211), after DRF field validation (montant_paye and remise
nonnegative, each line quantite at least 1 and remise_ligne nonnegative)
and validate_lignes (nonempty). The Vente row is created with the
serializer total and statut VALIDEE when montant_paye covers that total,
then the lines are persisted and the stocks debited. -/
def creerVente (prix : Nat → Int) (ref magasin : Nat) (paye remise : Int)
    (lignes : List LigneDemande) (e : Etat) : Except Err (Etat × Vente) := do
  if lignes.isEmpty then .error .validationErreur
  else if paye < 0 ∨ remise < 0 then .error .validationErreur
  else if ¬ lignes.all (fun l => 1 ≤ l.quantite ∧ 0 ≤ l.remiseLigne) then .error .validationErreur
  else
    let (total, articles) ← verifierLignes prix magasin e lignes
    let v0 : Vente :=
      { id := ref, magasin := magasin, montantTotal := total, montantPaye := paye,
        remise := remise,
        statut := if paye ≥ total then .VALIDEE else .EN_COURS,
        estAnnulee := false, motifAnnulation := "", lignes := [] }
    executerLignes prix articles (e, v0)

/-- Per line restoration loop of VenteViewSet.annuler (apps/ventes/views.py
lines 117-156): the current Stock row of (produit, magasin) is fetched and
credited, or created with quantite equal to the line quantity when absent;
in both branches a RETOUR movement referencing the sale is logged. -/
def annulerLignes (ref magasin : Nat) :
    List LigneVente → Etat → Except Err Etat
  | [], e => .ok e
  | l :: ls, e =>
    match e.stocks l.produit magasin with
    | some s => do
      let e1 ← saveStock e l.produit magasin { s with quantite := s.quantite + l.quantite }
      annulerLignes ref magasin ls (ajoutMouvement e1
        ⟨.RETOUR, l.quantite, s.quantite, s.quantite + l.quantite, l.produit, magasin,
          none, some ref⟩)
    | none => do
      let e1 ← saveStock e l.produit magasin ⟨l.quantite, 0, none⟩
      annulerLignes ref magasin ls (ajoutMouvement e1
        ⟨.RETOUR, l.quantite, 0, l.quantite, l.produit, magasin, none, some ref⟩)

/-- Python str.isspace on one character: the whitespace stripped by
str.strip in AnnulationVenteSerializer.validate_motif. -/
def estEspace (c : Char) : Bool :=
  c == ' ' || c == '\t' || c == '\n' || c == '\r' || c == Char.ofNat 11 || c == Char.ofNat 12

/-- The motif check of AnnulationVenteSerializer.validate_motif
(apps/ventes/serializers.py lines 214-222): value.strip() is empty exactly
when every character is whitespace. -/
def motifBlanc (motif : String) : Bool := motif.data.all estEspace

/-- VenteViewSet.annuler inside transaction.atomic (views.py lines 102-181):
rejects an already cancelled sale, requires a nonblank motif
(AnnulationVenteSerializer), restores the stocks line by line, then
Vente.annuler flips the flags and stores the cancellation metadata. -/
def annulerVente (v : Vente) (motif : String) (e : Etat) : Except Err (Etat × Vente) := do
  if v.estAnnulee then .error .venteAnnulee
  else if motifBlanc motif then .error .validationErreur
  else
    let e1 ← annulerLignes v.id v.magasin v.lignes e
    .ok (e1, { v with estAnnulee := true, statut := .ANNULEE, motifAnnulation := motif })

/-- LigneVente.save (apps/ventes/models.py lines 265-271): every save first
overwrites prix_unitaire with the current prix_vente of the product. -/
def ligneVenteSave (prix : Nat → Int) (l : LigneVente) : LigneVente :=
  { l with prixUnitaire := prix l.produit }

/-
Sale numbering (Vente.save, apps/ventes/models.py lines 167-184).
numero_vente is a varchar; it is embedded as a list of code points
(List Nat), so that the database string order used by
order_by the descending numero_vente (binary collation on ASCII digits)
is the lexicographic order on code points. 86 is the code of V, 48 the
code of 0.
-/

/-- Decimal digit expansion with explicit fuel, so that the kernel can
reduce it on closed inputs; the fuel never runs out when it exceeds n. -/
def chiffresAux : Nat → Nat → List Nat
  | 0, _ => []
  | fuel + 1, n => if n < 10 then [48 + n] else chiffresAux fuel (n / 10) ++ [48 + n % 10]

/-- Decimal digits of n as code points, most significant first
(the digits of str(n) in Python). -/
def chiffres (n : Nat) : List Nat := chiffresAux (n + 1) n

/-- Python format 04d: decimal digits left padded with zeros to at least
width 4 (wider when the number has more than 4 digits). -/
def pad4 (n : Nat) : List Nat :=
  List.replicate (4 - (chiffres n).length) 48 ++ chiffres n

/-- Strict lexicographic order on code point lists: the order the database
uses on the numero_vente column. -/
def lexLt : List Nat → List Nat → Bool
  | _, [] => false
  | [], _ :: _ => true
  | a :: as, b :: bs => a < b || (a = b && lexLt as bs)

/-- Does s start with the given pattern (numero_vente__startswith). -/
def debutePar : List Nat → List Nat → Bool
  | [], _ => true
  | _ :: _, [] => false
  | a :: ps, b :: ss => a = b && debutePar ps ss

/-- order_by descending numero_vente then first(): the maximum of the list
under the lexicographic column order, none when the list is empty. -/
def maxLex : List (List Nat) → Option (List Nat)
  | [] => none
  | x :: xs => some (xs.foldl (fun acc y => if lexLt acc y then y else acc) x)

/-- Python int() on the decimal digit characters s[-4:]. -/
def valeurChiffres (cs : List Nat) : Nat :=
  cs.foldl (fun a c => a * 10 + (c - 48)) 0

/-- The last four code points of s (Python s[-4:]). -/
def quatreDerniers (cs : List Nat) : List Nat :=
  cs.drop (cs.length - 4)

/-- Number generation inside Vente.save when numero_vente is empty
(models.py lines 169-182): filter the existing numbers on the prefix V
plus todays date, take the maximum under the column order, parse its last
four characters, add one, and format as V + date + 04d sequence. -/
def genNumero (date : List Nat) (existants : List (List Nat)) : List Nat :=
  let motif := 86 :: date
  let dujour := existants.filter (fun n => debutePar motif n)
  match maxLex dujour with
  | none => motif ++ pad4 1
  | some m => motif ++ pad4 (valeurChiffres (quatreDerniers m) + 1)

/-- Vente.save (models.py lines 167-184): the number is generated only when
the stored numero_vente is empty; otherwise it is kept unchanged. -/
def venteSaveNumero (numero : List Nat) (date : List Nat)
    (existants : List (List Nat)) : List Nat :=
  if numero = [] then genNumero date existants else numero

/-- The claimed shape of a generated sale number: V, then the date, then a
four character zero padded sequence produced by the 04d format. -/
def formeNumero (date n : List Nat) : Prop :=
  ∃ s, n = 86 :: date ++ pad4 s ∧ (pad4 s).length = 4

/-
Public operations, for the reachable state invariant of claim C3.
-/

/-- One invocation of a public stock mutating operation of the API:
stock creation, stock update, replenishment, transfer, adjustment, sale
creation, sale cancellation. -/
inductive Operation where
  | creer (p m : Nat) (q : Int)
  | modifier (p m : Nat) (objQ objR : Option Int)
  | reappro (p m : Nat) (q : Int)
  | transfert (p src dst : Nat) (q : Int)
  | ajustement (p m : Nat) (q : Int) (maintenant : Nat)
  | vendre (prix : Nat → Int) (ref magasin : Nat) (paye remise : Int)
      (lignes : List LigneDemande)
  | annulation (v : Vente) (motif : String)

/-- The state transition of one public operation (the Vente value returned
by the sale operations is dropped; only the stock ledger state remains). -/
def appliquer : Operation → Etat → Except Err Etat
  | .creer p m q, e => stockCreer p m q e
  | .modifier p m objQ objR, e => stockModifier p m objQ objR e
  | .reappro p m q, e => reapprovisionner p m q e
  | .transfert p src dst q, e => transferer p src dst q e
  | .ajustement p m q maintenant, e => ajuster p m q maintenant e
  | .vendre prix ref magasin paye remise lignes, e =>
      (creerVente prix ref magasin paye remise lignes e).map Prod.fst
  | .annulation v motif, e => (annulerVente v motif e).map Prod.fst

/-- The StockRecord state invariant of the spec: every stored row has
0 ≤ reserved_quantity ≤ quantity. -/
def Inv (e : Etat) : Prop :=
  ∀ p m s, e.stocks p m = some s → 0 ≤ s.reservee ∧ s.reservee ≤ s.quantite

/-
Helper lemmas about the state primitives.
-/

theorem putStock_stocks_meme (e : Etat) (p m : Nat) (s : Stock) :
    (putStock e p m s).stocks p m = some s := by
  simp [putStock]

theorem putStock_stocks_autre (e : Etat) (p m : Nat) (s : Stock) (p' m' : Nat)
    (h : ¬(p' = p ∧ m' = m)) : (putStock e p m s).stocks p' m' = e.stocks p' m' := by
  simp [putStock, h]

theorem putStock_mouvements (e : Etat) (p m : Nat) (s : Stock) :
    (putStock e p m s).mouvements = e.mouvements := rfl

theorem ajoutMouvement_stocks (e : Etat) (mv : Mouvement) :
    (ajoutMouvement e mv).stocks = e.stocks := rfl

theorem ajoutMouvement_stocks_app (e : Etat) (mv : Mouvement) (p m : Nat) :
    (ajoutMouvement e mv).stocks p m = e.stocks p m := rfl

theorem saveStock_reussit (e : Etat) (p m : Nat) (s : Stock)
    (h : s.reservee ≤ s.quantite) :
    saveStock e p m s = .ok (putStock e p m s) := by
  rw [saveStock, if_neg (by omega)]

theorem saveStock_inverse {e e' : Etat} {p m : Nat} {s : Stock}
    (h : saveStock e p m s = .ok e') :
    s.reservee ≤ s.quantite ∧ e' = putStock e p m s := by
  rw [saveStock] at h
  split at h
  · cases h
  · cases h
    exact ⟨by omega, rfl⟩

theorem inv_etatVide : Inv etatVide := by
  intro p m s h
  exact absurd h (by simp [etatVide])

theorem inv_putStock {e : Etat} {s : Stock} (he : Inv e) (p m : Nat)
    (h0 : 0 ≤ s.reservee) (h1 : s.reservee ≤ s.quantite) :
    Inv (putStock e p m s) := by
  intro p' m' s' hs
  by_cases hc : p' = p ∧ m' = m
  · obtain ⟨rfl, rfl⟩ := hc
    rw [putStock_stocks_meme] at hs
    cases hs
    exact ⟨h0, h1⟩
  · rw [putStock_stocks_autre e p m s p' m' hc] at hs
    exact he p' m' s' hs

theorem inv_ajoutMouvement {e : Etat} (he : Inv e) (mv : Mouvement) :
    Inv (ajoutMouvement e mv) := he

theorem inv_saveStock {e e' : Etat} {p m : Nat} {s : Stock} (he : Inv e)
    (h0 : 0 ≤ s.reservee) (h : saveStock e p m s = .ok e') : Inv e' := by
  obtain ⟨h1, rfl⟩ := saveStock_inverse h
  exact inv_putStock he p m h0 h1

/-- C5: starting from no stock for product 1 in magasins 2 and 3,
replenishing 20 into magasin 2 then transferring 5 to magasin 3 leaves
quantities 15 and 5, and the transfer appends exactly two movements: a
TRANSFERT on the source row carrying the destination magasin, and an
ENTREE on the destination row (the third listed movement is the one logged
by the replenishment itself). -/
theorem reappro_puis_transfert_scenario :
    (do
      let e1 ← reapprovisionner 1 2 20 etatVide
      transferer 1 2 3 5 e1).map
      (fun e => (quantiteEn e 1 2, quantiteEn e 1 3, e.mouvements)) =
    .ok (some 15, some 5,
      [⟨.ENTREE, 5, 0, 5, 1, 3, none, none⟩,
       ⟨.TRANSFERT, 5, 20, 15, 1, 2, some 3, none⟩,
       ⟨.ENTREE, 20, 0, 20, 1, 2, none, none⟩]) := by
  rfl

/-- C6: adjusting a stock row (satisfying the row invariant) to its current
quantity succeeds, leaves the quantity unchanged, stamps
last_inventory_date, and still logs an AJUSTEMENT movement with quantite 0
and quantite_avant equal to quantite_apres. -/
theorem ajustement_neutre_journalise (p m maintenant : Nat) (e : Etat) (s : Stock)
    (hs : e.stocks p m = some s) (h0 : 0 ≤ s.reservee) (h1 : s.reservee ≤ s.quantite) :
    ∃ e', ajuster p m s.quantite maintenant e = .ok e' ∧
      quantiteEn e' p m = some s.quantite ∧
      (e'.stocks p m).map Stock.lastInventory = some (some maintenant) ∧
      e'.mouvements = ⟨.AJUSTEMENT, 0, s.quantite, s.quantite, p, m, none, none⟩ :: e.mouvements := by
  refine ⟨ajoutMouvement
      (putStock e p m { s with quantite := s.quantite, lastInventory := some maintenant })
      ⟨.AJUSTEMENT, 0, s.quantite, s.quantite, p, m, none, none⟩, ?_, ?_, ?_, ?_⟩
  · have hq : ¬ s.quantite < 0 := by omega
    simp only [ajuster, hs]
    rw [saveStock_reussit e p m _ (by simpa using h1)]
    simp only [hq, if_false, Int.sub_self, Int.natAbs_zero, Int.natCast_zero]
    rfl
  · show ((putStock e p m _).stocks p m).map Stock.quantite = some s.quantite
    rw [putStock_stocks_meme]
    rfl
  · show ((putStock e p m _).stocks p m).map Stock.lastInventory = some (some maintenant)
    rw [putStock_stocks_meme]
    rfl
  · rfl

/-- C6 applied at a concrete row: product 1 in magasin 2 holding 10 units. -/
theorem ajustement_neutre_journalise_temoin :
    ∃ e', ajuster 1 2 10 99 (putStock etatVide 1 2 ⟨10, 0, none⟩) = .ok e' ∧
      quantiteEn e' 1 2 = some 10 ∧
      (e'.stocks 1 2).map Stock.lastInventory = some (some 99) ∧
      e'.mouvements = ⟨.AJUSTEMENT, 0, 10, 10, 1, 2, none, none⟩
        :: (putStock etatVide 1 2 ⟨10, 0, none⟩).mouvements :=
  ajustement_neutre_journalise 1 2 99 (putStock etatVide 1 2 ⟨10, 0, none⟩)
    ⟨10, 0, none⟩ (by rw [putStock_stocks_meme]) (by decide) (by decide)

theorem verifierLignes_echec (prix : Nat → Int) (magasin : Nat) (e : Etat) :
    ∀ lignes : List LigneDemande,
    (∃ l ∈ lignes, e.stocks l.produit magasin = none ∨
      ∃ s, e.stocks l.produit magasin = some s ∧ s.disponible < l.quantite) →
    verifierLignes prix magasin e lignes = .error .stockInsuffisant := by
  intro lignes
  induction lignes with
  | nil =>
    rintro ⟨l, hl, _⟩
    cases hl
  | cons l ls ih =>
    rintro ⟨l', hl', hbad⟩
    rcases List.mem_cons.mp hl' with rfl | hmem
    · rcases hbad with hnone | ⟨s, hsome, hlt⟩
      · simp [verifierLignes, hnone]
      · simp [verifierLignes, hsome, hlt]
    · cases hcase : e.stocks l.produit magasin with
      | none => simp [verifierLignes, hcase]
      | some s =>
        by_cases hd : s.disponible < l.quantite
        · simp [verifierLignes, hcase, hd]
        · simp [verifierLignes, hcase, hd, ih ⟨l', hmem, hbad⟩]
          rfl

/-- C2: if any requested line has no stock row in the magasin of the sale,
or a disponible (quantite - reservee) strictly below the requested
quantity, and the request passes the serializer field validation, then
creerVente fails with stockInsuffisant. The operation runs inside one
transaction.atomic block, and in the embedding an error result carries no
state: the caller keeps e unchanged, so no Vente, no LigneVente, no stock
change and no MouvementStock is persisted. -/
theorem vente_insuffisante_echec (prix : Nat → Int) (ref magasin : Nat)
    (paye remise : Int) (lignes : List LigneDemande) (e : Etat)
    (hpaye : 0 ≤ paye) (hremise : 0 ≤ remise)
    (hlignes : ∀ l ∈ lignes, 1 ≤ l.quantite ∧ 0 ≤ l.remiseLigne)
    (hmauvaise : ∃ l ∈ lignes, e.stocks l.produit magasin = none ∨
      ∃ s, e.stocks l.produit magasin = some s ∧ s.disponible < l.quantite) :
    creerVente prix ref magasin paye remise lignes e = .error .stockInsuffisant := by
  obtain ⟨l0, hl0, hbad0⟩ := hmauvaise
  have hne : lignes.isEmpty = false := by
    cases lignes with
    | nil => cases hl0
    | cons a as => rfl
  have htous : lignes.all (fun l => decide (1 ≤ l.quantite ∧ 0 ≤ l.remiseLigne)) = true := by
    rw [List.all_eq_true]
    intro l hl
    exact decide_eq_true (hlignes l hl)
  simp only [creerVente, hne, Bool.false_eq_true, if_false, htous, not_true, if_neg,
    verifierLignes_echec prix magasin e lignes ⟨l0, hl0, hbad0⟩]
  rw [if_neg (by omega)]
  rfl

/-- C2 applied at a concrete request: one line for product 1 in magasin 2
with no stock row at all. -/
theorem vente_insuffisante_echec_temoin :
    creerVente (fun _ => 100) 7 2 0 0 [⟨1, 2, none, 0⟩] etatVide = .error .stockInsuffisant :=
  vente_insuffisante_echec (fun _ => 100) 7 2 0 0 [⟨1, 2, none, 0⟩] etatVide
    (by decide) (by decide) (by decide)
    ⟨⟨1, 2, none, 0⟩, by simp, Or.inl rfl⟩

theorem putStock_isSome (e : Etat) (p m : Nat) (s : Stock) (p' m' : Nat)
    (h : (e.stocks p' m').isSome = true) :
    ((putStock e p m s).stocks p' m').isSome = true := by
  by_cases hc : p' = p ∧ m' = m
  · obtain ⟨rfl, rfl⟩ := hc
    rw [putStock_stocks_meme]
    rfl
  · rw [putStock_stocks_autre e p m s p' m' hc]
    exact h

theorem foldl_somme {α : Type} (g : α → Int) :
    ∀ (ls : List α) (a : Int),
      ls.foldl (fun t l => t + g l) a = a + ls.foldl (fun t l => t + g l) 0 := by
  intro ls
  induction ls with
  | nil => simp
  | cons l ls ih =>
    intro a
    simp only [List.foldl_cons]
    rw [ih (a + g l), ih (0 + g l)]
    ring

theorem totalDemande_cons (prix : Nat → Int) (l : LigneDemande) (ls : List LigneDemande) :
    totalDemande prix (l :: ls) =
      (prixEffectif prix l * l.quantite - l.remiseLigne) + totalDemande prix ls := by
  unfold totalDemande
  rw [List.foldl_cons, foldl_somme]
  ring

theorem sommeLignes_cons (l : LigneVente) (ls : List LigneVente) :
    sommeLignes (l :: ls) = montantLigne l + sommeLignes ls := by
  unfold sommeLignes
  rw [List.foldl_cons, foldl_somme]
  ring

theorem bindOk {α β : Type} (a : α) (f : α → Except Err β) :
    (Except.ok a >>= f) = f a := rfl

theorem bindErreur {α β : Type} (err : Err) (f : α → Except Err β) :
    ((Except.error err : Except Err α) >>= f) = .error err := rfl

theorem verifierLignes_inverse (prix : Nat → Int) (magasin : Nat) (e : Etat) :
    ∀ (lignes : List LigneDemande) (t : Int) (articles : List (LigneDemande × Int × Stock)),
    verifierLignes prix magasin e lignes = .ok (t, articles) →
    t = totalDemande prix lignes ∧ articles.map (fun it => it.1) = lignes ∧
    ∀ it ∈ articles, e.stocks it.1.produit magasin = some it.2.2 ∧
      it.1.quantite ≤ it.2.2.disponible := by
  intro lignes
  induction lignes with
  | nil =>
    intro t articles h
    rw [verifierLignes] at h
    cases h
    refine ⟨rfl, rfl, ?_⟩
    intro it hit
    cases hit
  | cons l ls ih =>
    intro t articles h
    rw [verifierLignes] at h
    split at h
    · cases h
    · rename_i s hcase
      split at h
      · cases h
      · rename_i hd
        cases hrec : verifierLignes prix magasin e ls with
        | error err =>
          rw [hrec, bindErreur] at h
          cases h
        | ok pr =>
          obtain ⟨t', reste⟩ := pr
          rw [hrec, bindOk] at h
          cases h
          obtain ⟨ht', hmap, hmem⟩ := ih t' reste hrec
          refine ⟨by rw [totalDemande_cons, ht'], by simp [hmap], ?_⟩
          intro it hit
          rcases List.mem_cons.mp hit with rfl | hin
          · refine ⟨hcase, ?_⟩
            show l.quantite ≤ s.disponible
            omega
          · exact hmem it hin

theorem verifierLignes_reussit (prix : Nat → Int) (magasin : Nat) (e : Etat) :
    ∀ lignes : List LigneDemande,
    (∀ l ∈ lignes, ∃ s, e.stocks l.produit magasin = some s ∧ l.quantite ≤ s.disponible) →
    ∃ t articles, verifierLignes prix magasin e lignes = .ok (t, articles) := by
  intro lignes
  induction lignes with
  | nil => exact fun _ => ⟨0, [], rfl⟩
  | cons l ls ih =>
    intro h
    obtain ⟨s, hs, hq⟩ := h l (List.mem_cons_self l ls)
    obtain ⟨t', reste, hrec⟩ := ih (fun l' hl' => h l' (List.mem_cons_of_mem l hl'))
    refine ⟨(prixEffectif prix l * l.quantite - l.remiseLigne) + t',
      (l, prixEffectif prix l, s) :: reste, ?_⟩
    rw [verifierLignes]
    simp only [hs]
    rw [if_neg (by omega), hrec, bindOk]

theorem executerLignes_vente (prix : Nat → Int) :
    ∀ (articles : List (LigneDemande × Int × Stock)) (e : Etat) (v : Vente)
      (e1 : Etat) (v1 : Vente),
    executerLignes prix articles (e, v) = .ok (e1, v1) →
    v1.id = v.id ∧ v1.magasin = v.magasin ∧ v1.montantPaye = v.montantPaye ∧
    v1.remise = v.remise ∧ v1.statut = v.statut ∧ v1.estAnnulee = v.estAnnulee ∧
    v1.lignes = v.lignes ++ articles.map
      (fun it => (⟨it.1.produit, it.1.quantite, prix it.1.produit, it.1.remiseLigne⟩ : LigneVente)) ∧
    (articles = [] → v1.montantTotal = v.montantTotal) ∧
    (articles ≠ [] → v1.montantTotal = sommeLignes v1.lignes) := by
  intro articles
  induction articles with
  | nil =>
    intro e v e1 v1 h
    rw [executerLignes] at h
    cases h
    simp
  | cons it reste ih =>
    intro e v e1 v1 h
    obtain ⟨l, pe, s⟩ := it
    rw [executerLignes] at h
    cases hsave : saveStock e l.produit v.magasin { s with quantite := s.quantite - l.quantite } with
    | error err => rw [hsave] at h; cases h
    | ok e' =>
      rw [hsave, bindOk] at h
      obtain ⟨hid, hmag, hpaye, hrem, hst, hann, hlig, _, hmt⟩ := ih _ _ _ _ h
      refine ⟨hid, hmag, hpaye, hrem, hst, hann, ?_, fun hc => absurd hc (by simp), fun _ => ?_⟩
      · rw [hlig]
        simp
      · rcases reste with _ | ⟨it', reste'⟩
        · have h0 := ih _ _ _ _ h
          rw [h0.2.2.2.2.2.2.2.1 rfl, hlig]
          simp
        · exact hmt (by simp)

theorem executerLignes_reussit (prix : Nat → Int) :
    ∀ (articles : List (LigneDemande × Int × Stock)) (e : Etat) (v : Vente),
    (∀ it ∈ articles, (it.2.2 : Stock).reservee ≤ it.2.2.quantite - it.1.quantite) →
    ∃ e1 v1, executerLignes prix articles (e, v) = .ok (e1, v1) := by
  intro articles
  induction articles with
  | nil => exact fun e v _ => ⟨e, v, rfl⟩
  | cons it reste ih =>
    intro e v h
    obtain ⟨l, pe, s⟩ := it
    have hgate : (⟨s.quantite - l.quantite, s.reservee, s.lastInventory⟩ : Stock).reservee ≤
        (⟨s.quantite - l.quantite, s.reservee, s.lastInventory⟩ : Stock).quantite := by
      have := h (l, pe, s) (List.mem_cons_self _ _)
      simpa using this
    obtain ⟨e1, v1, hrec⟩ := ih
      (ajoutMouvement (putStock e l.produit v.magasin ⟨s.quantite - l.quantite, s.reservee, s.lastInventory⟩)
        ⟨.SORTIE, l.quantite, s.quantite, s.quantite - l.quantite, l.produit, v.magasin, none, some v.id⟩)
      { v with lignes := v.lignes ++ [⟨l.produit, l.quantite, prix l.produit, l.remiseLigne⟩],
               montantTotal := sommeLignes (v.lignes ++ [⟨l.produit, l.quantite, prix l.produit, l.remiseLigne⟩]) }
      (fun it' hit' => h it' (List.mem_cons_of_mem _ hit'))
    refine ⟨e1, v1, ?_⟩
    rw [executerLignes, saveStock_reussit _ _ _ _ hgate, bindOk]
    exact hrec

theorem executerLignes_stocks (prix : Nat → Int) :
    ∀ (articles : List (LigneDemande × Int × Stock)) (e : Etat) (v : Vente)
      (e1 : Etat) (v1 : Vente),
    executerLignes prix articles (e, v) = .ok (e1, v1) →
    (∀ p m, (m ≠ v.magasin ∨ p ∉ articles.map (fun it => it.1.produit)) →
      e1.stocks p m = e.stocks p m) ∧
    ((articles.map (fun it => it.1.produit)).Nodup →
      ∀ it ∈ articles, e1.stocks it.1.produit v.magasin =
        some { it.2.2 with quantite := it.2.2.quantite - it.1.quantite }) := by
  intro articles
  induction articles with
  | nil =>
    intro e v e1 v1 h
    rw [executerLignes] at h
    cases h
    exact ⟨fun _ _ _ => rfl, fun _ it hit => absurd hit (by simp)⟩
  | cons it reste ih =>
    intro e v e1 v1 h
    obtain ⟨l, pe, s⟩ := it
    rw [executerLignes] at h
    cases hsave : saveStock e l.produit v.magasin { s with quantite := s.quantite - l.quantite } with
    | error err => rw [hsave, bindErreur] at h; cases h
    | ok e' =>
      rw [hsave, bindOk] at h
      obtain ⟨hgate, rfl⟩ := saveStock_inverse hsave
      obtain ⟨hcadre, hvals⟩ := ih _ _ _ _ h
      constructor
      · intro p m hpm
        have hpm2 : m ≠ v.magasin ∨ p ∉ reste.map (fun it => it.1.produit) := by
          rcases hpm with h1 | h2
          · exact Or.inl h1
          · exact Or.inr (fun hc => h2 (List.mem_cons_of_mem _ hc))
        rw [hcadre p m hpm2]
        show (putStock e l.produit v.magasin _).stocks p m = e.stocks p m
        apply putStock_stocks_autre
        rintro ⟨rfl, rfl⟩
        rcases hpm with h1 | h2
        · exact h1 rfl
        · exact h2 (List.mem_cons_self _ _)
      · intro hnd it' hit'
        have hnd2 := List.nodup_cons.mp
          (show (l.produit :: reste.map (fun it => it.1.produit)).Nodup from hnd)
        rcases List.mem_cons.mp hit' with rfl | hin
        · rw [hcadre l.produit v.magasin (Or.inr hnd2.1)]
          show (putStock e l.produit v.magasin _).stocks l.produit v.magasin = _
          rw [putStock_stocks_meme]
        · exact hvals hnd2.2 it' hin

theorem inv_executerLignes (prix : Nat → Int) :
    ∀ (articles : List (LigneDemande × Int × Stock)) (e : Etat) (v : Vente)
      (e1 : Etat) (v1 : Vente),
    executerLignes prix articles (e, v) = .ok (e1, v1) →
    Inv e → (∀ it ∈ articles, 0 ≤ (it.2.2 : Stock).reservee) → Inv e1 := by
  intro articles
  induction articles with
  | nil =>
    intro e v e1 v1 h he _
    rw [executerLignes] at h
    cases h
    exact he
  | cons it reste ih =>
    intro e v e1 v1 h he hr
    obtain ⟨l, pe, s⟩ := it
    rw [executerLignes] at h
    cases hsave : saveStock e l.produit v.magasin { s with quantite := s.quantite - l.quantite } with
    | error err => rw [hsave, bindErreur] at h; cases h
    | ok e' =>
      rw [hsave, bindOk] at h
      have he' : Inv e' :=
        inv_saveStock he (by simpa using hr (l, pe, s) (List.mem_cons_self _ _)) hsave
      exact ih _ _ _ _ h he' (fun it' hit' => hr it' (List.mem_cons_of_mem _ hit'))

theorem inv_annulerLignes (ref magasin : Nat) :
    ∀ (lvs : List LigneVente) (e e' : Etat),
    annulerLignes ref magasin lvs e = .ok e' → Inv e → Inv e' := by
  intro lvs
  induction lvs with
  | nil =>
    intro e e' h he
    rw [annulerLignes] at h
    cases h
    exact he
  | cons l ls ih =>
    intro e e' h he
    rw [annulerLignes] at h
    split at h
    · rename_i s hcase
      cases hsave : saveStock e l.produit magasin { s with quantite := s.quantite + l.quantite } with
      | error err => rw [hsave, bindErreur] at h; cases h
      | ok e1 =>
        rw [hsave, bindOk] at h
        have he1 : Inv e1 :=
          inv_saveStock he (by simpa using (he _ _ s hcase).1) hsave
        exact ih _ _ h he1
    · cases hsave : saveStock e l.produit magasin ⟨l.quantite, 0, none⟩ with
      | error err => rw [hsave, bindErreur] at h; cases h
      | ok e1 =>
        rw [hsave, bindOk] at h
        have he1 : Inv e1 := inv_saveStock he (by simp) hsave
        exact ih _ _ h he1

theorem annulerLignes_toujours (ref magasin : Nat) :
    ∀ (lvs : List LigneVente) (e : Etat), Inv e → (∀ l ∈ lvs, 0 ≤ l.quantite) →
    ∃ e', annulerLignes ref magasin lvs e = .ok e' ∧ Inv e' ∧
      (∀ mv ∈ e.mouvements, mv ∈ e'.mouvements) ∧
      (∀ p m, (e.stocks p m).isSome = true → (e'.stocks p m).isSome = true) ∧
      (∀ l ∈ lvs, (e'.stocks l.produit magasin).isSome = true ∧
        ∃ mv ∈ e'.mouvements, mv.type = .RETOUR ∧ mv.vente = some ref ∧
          mv.produit = l.produit ∧ mv.magasin = magasin ∧ mv.quantite = l.quantite ∧
          mv.apres = mv.avant + l.quantite) := by
  intro lvs
  induction lvs with
  | nil =>
    intro e he _
    exact ⟨e, rfl, he, fun _ h => h, fun _ _ h => h, fun l hl => absurd hl (by simp)⟩
  | cons l ls ih =>
    intro e he hq
    have hql : 0 ≤ l.quantite := hq l (List.mem_cons_self _ _)
    cases hcase : e.stocks l.produit magasin with
    | some s =>
      have h0 := he _ _ s hcase
      have hgate : ({ s with quantite := s.quantite + l.quantite } : Stock).reservee ≤
          ({ s with quantite := s.quantite + l.quantite } : Stock).quantite := by
        simp only []
        omega
      obtain ⟨e', hok, hinv, hmov, hsome, hvals⟩ := ih
        (ajoutMouvement (putStock e l.produit magasin { s with quantite := s.quantite + l.quantite })
          ⟨.RETOUR, l.quantite, s.quantite, s.quantite + l.quantite, l.produit, magasin, none, some ref⟩)
        (inv_ajoutMouvement (inv_putStock he _ _ (by simp only []; omega) hgate) _)
        (fun l' hl' => hq l' (List.mem_cons_of_mem _ hl'))
      refine ⟨e', ?_, hinv, ?_, ?_, ?_⟩
      · simp only [annulerLignes, hcase]
        rw [saveStock_reussit _ _ _ _ hgate, bindOk]
        exact hok
      · intro mv hmv
        exact hmov mv (List.mem_cons_of_mem _ hmv)
      · intro p m hsm
        exact hsome p m (putStock_isSome e _ _ _ p m hsm)
      · intro l' hl'
        rcases List.mem_cons.mp hl' with rfl | hin
        · refine ⟨hsome _ _ ?_, ?_⟩
          · rw [ajoutMouvement_stocks_app, putStock_stocks_meme]
            rfl
          · refine ⟨⟨.RETOUR, l'.quantite, s.quantite, s.quantite + l'.quantite, l'.produit,
              magasin, none, some ref⟩, hmov _ (List.mem_cons_self _ _), rfl, rfl, rfl, rfl, rfl, rfl⟩
        · exact hvals l' hin
    | none =>
      have hgate : (⟨l.quantite, 0, none⟩ : Stock).reservee ≤
          (⟨l.quantite, 0, none⟩ : Stock).quantite := by
        simp only []
        omega
      obtain ⟨e', hok, hinv, hmov, hsome, hvals⟩ := ih
        (ajoutMouvement (putStock e l.produit magasin ⟨l.quantite, 0, none⟩)
          ⟨.RETOUR, l.quantite, 0, l.quantite, l.produit, magasin, none, some ref⟩)
        (inv_ajoutMouvement (inv_putStock he _ _ (by simp) hgate) _)
        (fun l' hl' => hq l' (List.mem_cons_of_mem _ hl'))
      refine ⟨e', ?_, hinv, ?_, ?_, ?_⟩
      · simp only [annulerLignes, hcase]
        rw [saveStock_reussit _ _ _ _ hgate, bindOk]
        exact hok
      · intro mv hmv
        exact hmov mv (List.mem_cons_of_mem _ hmv)
      · intro p m hsm
        exact hsome p m (putStock_isSome e _ _ _ p m hsm)
      · intro l' hl'
        rcases List.mem_cons.mp hl' with rfl | hin
        · refine ⟨hsome _ _ ?_, ?_⟩
          · rw [ajoutMouvement_stocks_app, putStock_stocks_meme]
            rfl
          · refine ⟨⟨.RETOUR, l'.quantite, 0, l'.quantite, l'.produit, magasin, none, some ref⟩,
              hmov _ (List.mem_cons_self _ _), rfl, rfl, rfl, rfl, rfl, by simp⟩
        · exact hvals l' hin

theorem annulerLignes_restaure (ref magasin : Nat) :
    ∀ (lvs : List LigneVente) (e : Etat),
    (lvs.map (fun l => l.produit)).Nodup →
    (∀ l ∈ lvs, 0 ≤ l.quantite ∧
      ∃ s, e.stocks l.produit magasin = some s ∧ s.reservee ≤ s.quantite) →
    ∃ e', annulerLignes ref magasin lvs e = .ok e' ∧
      (∀ p m, (m ≠ magasin ∨ p ∉ lvs.map (fun l => l.produit)) →
        e'.stocks p m = e.stocks p m) ∧
      ∀ l ∈ lvs, ∃ s, e.stocks l.produit magasin = some s ∧
        e'.stocks l.produit magasin = some { s with quantite := s.quantite + l.quantite } := by
  intro lvs
  induction lvs with
  | nil =>
    intro e _ _
    exact ⟨e, rfl, fun _ _ _ => rfl, fun l hl => absurd hl (by simp)⟩
  | cons l ls ih =>
    intro e hnd h
    have hnd2 := List.nodup_cons.mp
      (show (l.produit :: ls.map (fun l => l.produit)).Nodup from hnd)
    obtain ⟨hql, s, hs, hrq⟩ := h l (List.mem_cons_self _ _)
    have hgate : ({ s with quantite := s.quantite + l.quantite } : Stock).reservee ≤
        ({ s with quantite := s.quantite + l.quantite } : Stock).quantite := by
      simp only []
      omega
    obtain ⟨e', hok, hcadre, hvals⟩ := ih
      (ajoutMouvement (putStock e l.produit magasin { s with quantite := s.quantite + l.quantite })
        ⟨.RETOUR, l.quantite, s.quantite, s.quantite + l.quantite, l.produit, magasin, none, some ref⟩)
      hnd2.2
      (by
        intro l' hl'
        obtain ⟨hql', s', hs', hrq'⟩ := h l' (List.mem_cons_of_mem _ hl')
        refine ⟨hql', s', ?_, hrq'⟩
        rw [ajoutMouvement_stocks_app, putStock_stocks_autre]
        · exact hs'
        · rintro ⟨hp, -⟩
          exact hnd2.1 (hp ▸ List.mem_map_of_mem (fun x => x.produit) hl'))
    refine ⟨e', ?_, ?_, ?_⟩
    · simp only [annulerLignes, hs]
      rw [saveStock_reussit _ _ _ _ hgate, bindOk]
      exact hok
    · intro p m hpm
      have hpm2 : m ≠ magasin ∨ p ∉ ls.map (fun l => l.produit) := by
        rcases hpm with h1 | h2
        · exact Or.inl h1
        · exact Or.inr (fun hc => h2 (List.mem_cons_of_mem _ hc))
      rw [hcadre p m hpm2, ajoutMouvement_stocks_app]
      apply putStock_stocks_autre
      rintro ⟨rfl, rfl⟩
      rcases hpm with h1 | h2
      · exact h1 rfl
      · exact h2 (List.mem_cons_self _ _)
    · intro l' hl'
      rcases List.mem_cons.mp hl' with rfl | hin
      · refine ⟨s, hs, ?_⟩
        rw [hcadre l'.produit magasin (Or.inr hnd2.1), ajoutMouvement_stocks_app,
          putStock_stocks_meme]
      · obtain ⟨s', hs', hfin⟩ := hvals l' hin
        refine ⟨s', ?_, hfin⟩
        rw [ajoutMouvement_stocks_app] at hs'
        rw [putStock_stocks_autre] at hs'
        · exact hs'
        · rintro ⟨hp, -⟩
          exact hnd2.1 (hp ▸ List.mem_map_of_mem (fun x => x.produit) hin)

theorem creerVente_inverse {prix : Nat → Int} {ref magasin : Nat} {paye remise : Int}
    {lignes : List LigneDemande} {e e1 : Etat} {v1 : Vente}
    (h : creerVente prix ref magasin paye remise lignes e = .ok (e1, v1)) :
    ∃ articles,
      verifierLignes prix magasin e lignes = .ok (totalDemande prix lignes, articles) ∧
      articles.map (fun it => it.1) = lignes ∧
      (∀ it ∈ articles, e.stocks it.1.produit magasin = some it.2.2 ∧
        it.1.quantite ≤ it.2.2.disponible) ∧
      executerLignes prix articles
        (e, ⟨ref, magasin, totalDemande prix lignes, paye, remise,
          if paye ≥ totalDemande prix lignes then .VALIDEE else .EN_COURS, false, "", []⟩) =
        .ok (e1, v1) := by
  rw [creerVente] at h
  split at h
  · cases h
  · split at h
    · cases h
    · split at h
      · cases h
      · cases hver : verifierLignes prix magasin e lignes with
        | error err => rw [hver, bindErreur] at h; cases h
        | ok pr =>
          obtain ⟨t, articles⟩ := pr
          rw [hver, bindOk] at h
          obtain ⟨ht, hmap, hmem⟩ := verifierLignes_inverse prix magasin e lignes t articles hver
          subst ht
          exact ⟨articles, rfl, hmap, hmem, h⟩

theorem totalDemande_egal_somme (prix : Nat → Int) :
    ∀ lignes : List LigneDemande,
    (∀ l ∈ lignes, prixEffectif prix l = prix l.produit) →
    totalDemande prix lignes =
      sommeLignes (lignes.map fun l =>
        (⟨l.produit, l.quantite, prix l.produit, l.remiseLigne⟩ : LigneVente)) := by
  intro lignes
  induction lignes with
  | nil => exact fun _ => rfl
  | cons l ls ih =>
    intro h
    rw [totalDemande_cons, List.map_cons, sommeLignes_cons,
      ih (fun l' hl' => h l' (List.mem_cons_of_mem _ hl')),
      h l (List.mem_cons_self _ _)]
    rfl

theorem statut_si_iff (c : Prop) [Decidable c] :
    ((if c then Statut.VALIDEE else Statut.EN_COURS) = Statut.VALIDEE) ↔ c := by
  by_cases hc : c
  · simp [hc]
  · simp [hc]

/-- C4 (amended): for every successful creerVente, the persisted
montant_total equals the sum over the stored lines of
prix_unitaire * quantite - remise_ligne (where each stored prix_unitaire
has been overwritten by LigneVente.save with the product price), while the
persisted statut is VALIDEE exactly when montant_paye covers the
serializer total computed from the requested unit prices. The two agree
wheneve no line carries an explicit price override, but can disagree when
an override differs from the product price, which is what refutes the
claim as stated. -/
theorem montant_total_et_statut (prix : Nat → Int) (ref magasin : Nat)
    (paye remise : Int) (lignes : List LigneDemande) (e e1 : Etat) (v1 : Vente)
    (h : creerVente prix ref magasin paye remise lignes e = .ok (e1, v1)) :
    v1.montantTotal = sommeLignes v1.lignes ∧
    (v1.statut = .VALIDEE ↔ totalDemande prix lignes ≤ paye) ∧
    ((∀ l ∈ lignes, l.prixUnitaire = none) →
      (v1.statut = .VALIDEE ↔ v1.montantPaye ≥ v1.montantTotal)) := by
  obtain ⟨articles, hver, hmap, hmem, hexec⟩ := creerVente_inverse h
  obtain ⟨hid, hmag, hpaye, hrem, hst, hann, hlig, hmt0, hmt⟩ :=
    executerLignes_vente prix articles _ _ _ _ hexec
  have hstatut : v1.statut = .VALIDEE ↔ totalDemande prix lignes ≤ paye := by
    rw [hst]
    show (if paye ≥ totalDemande prix lignes then Statut.VALIDEE else .EN_COURS) = _ ↔ _
    rw [statut_si_iff]
  have hmontant : v1.montantTotal = sommeLignes v1.lignes := by
    rcases articles with _ | ⟨it0, reste⟩
    · have hlnil : lignes = [] := by simpa using hmap.symm
      rw [hmt0 rfl, hlig]
      subst hlnil
      rfl
    · exact hmt (by simp)
  refine ⟨hmontant, hstatut, ?_⟩
  intro hnone
  have heff : ∀ l ∈ lignes, prixEffectif prix l = prix l.produit := by
    intro l hl
    rw [prixEffectif, hnone l hl]
  have htd : totalDemande prix lignes = sommeLignes v1.lignes := by
    rw [totalDemande_egal_somme prix lignes heff, hlig, ← hmap, List.nil_append,
      List.map_map]
    rfl
  rw [hstatut, htd, hmontant, hpaye]

/-- C4 witness: one line of product 1 at the product price 100, paid 100:
total 100 and statut VALIDEE, consistent with the stored lines. -/
theorem montant_total_et_statut_temoin :
    ∃ e1 v1, creerVente (fun _ => 100) 7 2 100 0 [⟨1, 1, none, 0⟩]
        (putStock etatVide 1 2 ⟨10, 0, none⟩) = .ok (e1, v1) ∧
      v1.montantTotal = sommeLignes v1.lignes ∧
      (v1.statut = .VALIDEE ↔ totalDemande (fun _ => 100) [⟨1, 1, none, 0⟩] ≤ 100) := by
  obtain ⟨e1, v1, hok⟩ :
      ∃ e1 v1, creerVente (fun _ => 100) 7 2 100 0 [⟨1, 1, none, 0⟩]
        (putStock etatVide 1 2 ⟨10, 0, none⟩) = .ok (e1, v1) := ⟨_, _, rfl⟩
  obtain ⟨h1, h2, _⟩ :=
    montant_total_et_statut (fun _ => 100) 7 2 100 0 [⟨1, 1, none, 0⟩] _ e1 v1 hok
  exact ⟨e1, v1, hok, h1, h2⟩

/-- C4 counterexample: the line requests an explicit prix_unitaire of 50
while the product price is 100 and montant_paye is 50. The serializer sets
statut VALIDEE (50 covers the requested total 50), but LigneVente.save then
rewrites the stored price to 100 and update_montant_total persists
montant_total 100, so the persisted sale has statut VALIDEE although
paid_amount 50 is strictly below total_amount 100, contradicting the
claimed status rule. -/
theorem montant_statut_divergent_contre :
    (creerVente (fun _ => 100) 7 2 50 0 [⟨1, 1, some 50, 0⟩]
        (putStock etatVide 1 2 ⟨10, 0, none⟩)).map
      (fun r => (r.2.statut, r.2.montantTotal, r.2.montantPaye)) =
      .ok (.VALIDEE, 100, 50) ∧ ¬ ((50 : Int) ≥ 100) := ⟨rfl, by decide⟩

theorem executerLignes_remise (prix : Nat → Int) (r : Int) :
    ∀ (articles : List (LigneDemande × Int × Stock)) (e : Etat) (v : Vente),
    executerLignes prix articles (e, { v with remise := r }) =
      (executerLignes prix articles (e, v)).map
        (fun res => (res.1, { res.2 with remise := r })) := by
  intro articles
  induction articles with
  | nil => intro e v; rfl
  | cons it reste ih =>
    intro e v
    obtain ⟨l, pe, s⟩ := it
    simp only [executerLignes]
    cases hsave : saveStock e l.produit v.magasin { s with quantite := s.quantite - l.quantite } with
    | error err => rfl
    | ok e2 =>
      rw [bindOk, bindOk]
      exact ih
        (ajoutMouvement e2
          ⟨.SORTIE, l.quantite, s.quantite, s.quantite - l.quantite, l.produit, v.magasin,
            none, some v.id⟩)
        { v with
          lignes := v.lignes ++ [⟨l.produit, l.quantite, prix l.produit, l.remiseLigne⟩],
          montantTotal :=
            sommeLignes (v.lignes ++ [⟨l.produit, l.quantite, prix l.produit, l.remiseLigne⟩]) }

/-- C10: the sale level remise never enters montant_total or the statut
decision: creating with remise r is the creation with remise 0 except for
the stored remise field; montant_net subtracts remise from the gross
total; est_payee and the persisted statut compare montant_paye against
totals gross of remise (the statut against the serializer total of the
requested lines, which carries no remise term). -/
theorem remise_hors_total_et_statut (prix : Nat → Int) (ref magasin : Nat)
    (paye remise : Int) (lignes : List LigneDemande) (e : Etat) (hr : 0 ≤ remise) :
    (creerVente prix ref magasin paye remise lignes e =
      (creerVente prix ref magasin paye 0 lignes e).map
        (fun res => (res.1, { res.2 with remise := remise }))) ∧
    ∀ e1 v1, creerVente prix ref magasin paye remise lignes e = .ok (e1, v1) →
      v1.remise = remise ∧ v1.montantNet = v1.montantTotal - remise ∧
      (v1.estPayee = true ↔ v1.montantTotal ≤ v1.montantPaye) ∧
      (v1.statut = .VALIDEE ↔ totalDemande prix lignes ≤ paye) := by
  constructor
  · simp only [creerVente]
    by_cases h1 : lignes.isEmpty = true
    · rw [if_pos h1, if_pos h1]
      rfl
    · rw [if_neg h1, if_neg h1]
      by_cases h2 : paye < 0
      · rw [if_pos (Or.inl h2), if_pos (Or.inl h2)]
        rfl
      · rw [if_neg (by omega : ¬(paye < 0 ∨ remise < 0)),
          if_neg (by omega : ¬(paye < 0 ∨ (0 : Int) < 0))]
        by_cases h3 : lignes.all (fun l => decide (1 ≤ l.quantite ∧ 0 ≤ l.remiseLigne)) = true
        · rw [if_neg (fun hc => hc h3), if_neg (fun hc => hc h3)]
          cases hver : verifierLignes prix magasin e lignes with
          | error err => rfl
          | ok pr =>
            obtain ⟨t, articles⟩ := pr
            rw [bindOk, bindOk]
            exact executerLignes_remise prix remise articles e
              ⟨ref, magasin, t, paye, 0, if paye ≥ t then .VALIDEE else .EN_COURS, false, "", []⟩
        · rw [if_pos h3, if_pos h3]
          rfl
  · intro e1 v1 h
    obtain ⟨articles, hver, hmap, hmem, hexec⟩ := creerVente_inverse h
    obtain ⟨hid, hmag, hpaye, hrem, hst, hann, hlig, hmt0, hmt⟩ :=
      executerLignes_vente prix articles _ _ _ _ hexec
    refine ⟨by rw [hrem], ?_, ?_, ?_⟩
    · show v1.montantTotal - v1.remise = v1.montantTotal - remise
      rw [hrem]
    · show decide (v1.montantPaye ≥ v1.montantTotal) = true ↔ _
      rw [decide_eq_true_eq]
    · rw [hst]
      show (if paye ≥ totalDemande prix lignes then Statut.VALIDEE else .EN_COURS) = _ ↔ _
      rw [statut_si_iff]

/-- C10 witness: creating with remise 30 equals creating with remise 0 up
to the stored remise field, and montant_net subtracts the remise. -/
theorem remise_hors_total_et_statut_temoin :
    (creerVente (fun _ => 100) 7 2 100 30 [⟨1, 1, none, 0⟩]
        (putStock etatVide 1 2 ⟨10, 0, none⟩) =
      (creerVente (fun _ => 100) 7 2 100 0 [⟨1, 1, none, 0⟩]
        (putStock etatVide 1 2 ⟨10, 0, none⟩)).map
        (fun res => (res.1, { res.2 with remise := 30 }))) ∧
    ∃ e1 v1, creerVente (fun _ => 100) 7 2 100 30 [⟨1, 1, none, 0⟩]
        (putStock etatVide 1 2 ⟨10, 0, none⟩) = .ok (e1, v1) ∧
      v1.remise = 30 ∧ v1.montantNet = v1.montantTotal - 30 := by
  have h := remise_hors_total_et_statut (fun _ => 100) 7 2 100 30 [⟨1, 1, none, 0⟩]
    (putStock etatVide 1 2 ⟨10, 0, none⟩) (by decide)
  obtain ⟨e1, v1, hok⟩ :
      ∃ e1 v1, creerVente (fun _ => 100) 7 2 100 30 [⟨1, 1, none, 0⟩]
        (putStock etatVide 1 2 ⟨10, 0, none⟩) = .ok (e1, v1) := ⟨_, _, rfl⟩
  obtain ⟨hr1, hr2, _, _⟩ := h.2 e1 v1 hok
  exact ⟨h.1, e1, v1, hok, hr1, hr2⟩

/-- C8 (amended): prix_unitaire is not a frozen snapshot: every save of a
LigneVente overwrites it with the current prix_vente of the product, and
already at creation the stored price is the product price (any explicit
override in the request is discarded by LigneVente.save). -/
theorem prix_unitaire_reecrit :
    (∀ (prix : Nat → Int) (l : LigneVente),
      (ligneVenteSave prix l).prixUnitaire = prix l.produit) ∧
    ∀ (prix : Nat → Int) (ref magasin : Nat) (paye remise : Int)
      (lignes : List LigneDemande) (e e1 : Etat) (v1 : Vente),
      creerVente prix ref magasin paye remise lignes e = .ok (e1, v1) →
      ∀ lv ∈ v1.lignes, lv.prixUnitaire = prix lv.produit := by
  constructor
  · intro prix l
    rfl
  · intro prix ref magasin paye remise lignes e e1 v1 h lv hlv
    obtain ⟨articles, hver, hmap, hmem, hexec⟩ := creerVente_inverse h
    have hlig := (executerLignes_vente prix articles _ _ _ _ hexec).2.2.2.2.2.2.1
    rw [hlig, List.nil_append] at hlv
    obtain ⟨it, _, rfl⟩ := List.mem_map.mp hlv
    rfl

/-- C8 witness: after creating a sale under product price 100, every stored
line carries prix_unitaire 100, and re-saving one line under product price
120 yields 120. -/
theorem prix_unitaire_reecrit_temoin :
    ∃ e1 v1, creerVente (fun _ => 100) 7 2 100 0 [⟨1, 1, none, 0⟩]
        (putStock etatVide 1 2 ⟨10, 0, none⟩) = .ok (e1, v1) ∧
      (∀ lv ∈ v1.lignes, lv.prixUnitaire = 100) ∧
      (∀ lv ∈ v1.lignes, (ligneVenteSave (fun _ => 120) lv).prixUnitaire = 120) := by
  obtain ⟨e1, v1, hok⟩ :
      ∃ e1 v1, creerVente (fun _ => 100) 7 2 100 0 [⟨1, 1, none, 0⟩]
        (putStock etatVide 1 2 ⟨10, 0, none⟩) = .ok (e1, v1) := ⟨_, _, rfl⟩
  refine ⟨e1, v1, hok, ?_, ?_⟩
  · intro lv hlv
    exact prix_unitaire_reecrit.2 (fun _ => 100) 7 2 100 0 _ _ e1 v1 hok lv hlv
  · intro lv hlv
    exact prix_unitaire_reecrit.1 (fun _ => 120) lv

/-- C8 counterexample: the sale is created while the product price is 100,
so the stored prix_unitaire is 100; after the product price changes to
120, a later save of the same line stores 120, not the snapshot 100 the
claim promises. -/
theorem prix_unitaire_instantane_contre :
    (creerVente (fun _ => 100) 7 2 100 0 [⟨1, 1, none, 0⟩]
        (putStock etatVide 1 2 ⟨10, 0, none⟩)).map
      (fun res => res.2.lignes.map (fun lv => lv.prixUnitaire)) = .ok [100] ∧
    (creerVente (fun _ => 100) 7 2 100 0 [⟨1, 1, none, 0⟩]
        (putStock etatVide 1 2 ⟨10, 0, none⟩)).map
      (fun res => res.2.lignes.map (fun lv => (ligneVenteSave (fun _ => 120) lv).prixUnitaire)) =
      .ok [120] ∧
    (100 : Int) ≠ 120 := ⟨rfl, rfl, by decide⟩

/-- C9: the restoration loop of sale cancellation never fails on a missing
stock row. First conjunct: when the row of (produit, magasin) is absent,
the per line step creates it with quantite equal to the line quantity and
logs the RETOUR movement referencing the sale, then continues. Second
conjunct: for a sale that is not yet cancelled, with a nonblank motif and
nonnegative line quantities, on any state satisfying the stock invariant,
the whole cancellation succeeds, afterwards every line has a stock row,
and for every line a RETOUR movement referencing the sale is logged with
quantite_apres = quantite_avant + line quantity. -/
theorem annulation_jamais_echec_retour (v : Vente) (motif : String) (e : Etat)
    (he : Inv e) (hann : v.estAnnulee = false) (hmotif : motifBlanc motif = false)
    (hq : ∀ l ∈ v.lignes, 0 ≤ l.quantite) :
    (∀ (l : LigneVente) (ls : List LigneVente) (e2 : Etat),
      e2.stocks l.produit v.magasin = none → 0 ≤ l.quantite →
      annulerLignes v.id v.magasin (l :: ls) e2 =
        annulerLignes v.id v.magasin ls
          (ajoutMouvement (putStock e2 l.produit v.magasin ⟨l.quantite, 0, none⟩)
            ⟨.RETOUR, l.quantite, 0, l.quantite, l.produit, v.magasin, none, some v.id⟩)) ∧
    ∃ e' v', annulerVente v motif e = .ok (e', v') ∧
      (∀ l ∈ v.lignes, (e'.stocks l.produit v.magasin).isSome = true) ∧
      (∀ l ∈ v.lignes, ∃ mv ∈ e'.mouvements, mv.type = .RETOUR ∧ mv.vente = some v.id ∧
        mv.produit = l.produit ∧ mv.magasin = v.magasin ∧ mv.quantite = l.quantite ∧
        mv.apres = mv.avant + l.quantite) := by
  constructor
  · intro l ls e2 hnone hql
    simp only [annulerLignes, hnone]
    rw [saveStock_reussit _ _ _ _ (by simp only []; omega), bindOk]
  · obtain ⟨e', hok, hinv, hmov, hsome, hvals⟩ :=
      annulerLignes_toujours v.id v.magasin v.lignes e he hq
    refine ⟨e', { v with estAnnulee := true, statut := .ANNULEE, motifAnnulation := motif },
      ?_, fun l hl => (hvals l hl).1, fun l hl => (hvals l hl).2⟩
    rw [annulerVente, hann]
    simp only [Bool.false_eq_true, if_false, hmotif]
    rw [hok, bindOk]

/-- C9 witness: a sale of 2 units of product 1 in magasin 2 cancelled on
the empty state, exercising the branch that recreates the missing row. -/
theorem annulation_jamais_echec_retour_temoin :
    ∃ e' v', annulerVente ⟨7, 2, 200, 200, 0, .VALIDEE, false, "", [⟨1, 2, 100, 0⟩]⟩
        "defaut" etatVide = .ok (e', v') ∧
      (∀ l ∈ ([⟨1, 2, 100, 0⟩] : List LigneVente), (e'.stocks l.produit 2).isSome = true) ∧
      (∀ l ∈ ([⟨1, 2, 100, 0⟩] : List LigneVente), ∃ mv ∈ e'.mouvements,
        mv.type = .RETOUR ∧ mv.vente = some 7 ∧ mv.produit = l.produit ∧
        mv.magasin = 2 ∧ mv.quantite = l.quantite ∧ mv.apres = mv.avant + l.quantite) := by
  obtain ⟨-, e', v', hok, hsome, hmv⟩ :=
    annulation_jamais_echec_retour ⟨7, 2, 200, 200, 0, .VALIDEE, false, "", [⟨1, 2, 100, 0⟩]⟩
      "defaut" etatVide inv_etatVide rfl (by decide) (by decide)
  exact ⟨e', v', hok, hsome, hmv⟩

/-- C1 counterexample: two lines of the same product (quantities 3 and 4)
against a stock of 10, each line individually available. The first
creation loop reads the same row snapshot (quantity 10) for both lines
before any write, so the second line save overwrites the first debit:
after creation the stock is 10 - 4 = 6 instead of 3. Cancellation then
restores 3 + 4 = 7, ending at 13, not the pre-sale 10. -/
theorem creer_puis_annuler_doublon_contre :
    (∀ l ∈ ([⟨1, 3, none, 0⟩, ⟨1, 4, none, 0⟩] : List LigneDemande),
      ∃ s, (putStock etatVide 1 2 ⟨10, 0, none⟩).stocks l.produit 2 = some s ∧
        l.quantite ≤ s.disponible) ∧
    (do
      let r1 ← creerVente (fun _ => 100) 7 2 1000 0 [⟨1, 3, none, 0⟩, ⟨1, 4, none, 0⟩]
        (putStock etatVide 1 2 ⟨10, 0, none⟩)
      let r2 ← annulerVente r1.2 "retour" r1.1
      pure (quantiteEn r2.1 1 2)) = .ok (some 13) ∧
    quantiteEn (putStock etatVide 1 2 ⟨10, 0, none⟩) 1 2 = some 10 ∧
    (13 : Int) ≠ 10 := by
  refine ⟨?_, rfl, rfl, by decide⟩
  intro l hl
  fin_cases hl <;> exact ⟨⟨10, 0, none⟩, rfl, by decide⟩

/-- C1 (amended): for a request whose lines reference pairwise distinct
products, all serializer validations passing and every line available in
the magasin of the sale, cancelling the sale created by creerVente
restores the quantity of every stock row to its value from before the
sale. (With duplicate products in the lines the creation under debits and
the property fails, see the counterexample.) -/
theorem creer_puis_annuler_restaure (prix : Nat → Int) (ref magasin : Nat)
    (paye remise : Int) (lignes : List LigneDemande) (motif : String) (e : Etat)
    (hne : lignes ≠ []) (hpaye : 0 ≤ paye) (hrem : 0 ≤ remise)
    (hval : ∀ l ∈ lignes, 1 ≤ l.quantite ∧ 0 ≤ l.remiseLigne)
    (hnd : (lignes.map (fun l => l.produit)).Nodup)
    (hdisp : ∀ l ∈ lignes, ∃ s, e.stocks l.produit magasin = some s ∧ l.quantite ≤ s.disponible)
    (hmotif : motifBlanc motif = false) :
    ∃ e1 v1 e2 v2, creerVente prix ref magasin paye remise lignes e = .ok (e1, v1) ∧
      annulerVente v1 motif e1 = .ok (e2, v2) ∧
      ∀ p m, quantiteEn e2 p m = quantiteEn e p m := by
  -- success and characterization of the verification loop
  obtain ⟨t, articles, hver⟩ := verifierLignes_reussit prix magasin e lignes hdisp
  obtain ⟨ht, hmap, hmem⟩ := verifierLignes_inverse prix magasin e lignes t articles hver
  subst ht
  -- success of the execution loop on the initial sale row
  obtain ⟨e1, v1, hexec⟩ := executerLignes_reussit prix articles e
    ⟨ref, magasin, totalDemande prix lignes, paye, remise,
      if paye ≥ totalDemande prix lignes then .VALIDEE else .EN_COURS, false, "", []⟩
    (by
      intro it hit
      obtain ⟨-, hd⟩ := hmem it hit
      have : it.1.quantite ≤ it.2.2.quantite - it.2.2.reservee := hd
      omega)
  have hok : creerVente prix ref magasin paye remise lignes e = .ok (e1, v1) := by
    have hie : lignes.isEmpty = false := by
      cases lignes with
      | nil => exact absurd rfl hne
      | cons a as => rfl
    have htous : lignes.all (fun l => decide (1 ≤ l.quantite ∧ 0 ≤ l.remiseLigne)) = true := by
      rw [List.all_eq_true]
      intro l hl
      exact decide_eq_true (hval l hl)
    rw [creerVente, if_neg (by simp [hie]), if_neg (by omega),
      if_neg (fun hc => hc htous), hver, bindOk]
    exact hexec
  -- characterization of the sale row and of the stocks after creation
  obtain ⟨hid, hmag, hpaye1, hrem1, hst, hann, hlig, hmt0, hmt⟩ :=
    executerLignes_vente prix articles _ _ _ _ hexec
  have harnd : (articles.map (fun it => it.1.produit)).Nodup := by
    have : articles.map (fun it => it.1.produit) = lignes.map (fun l => l.produit) := by
      rw [← hmap, List.map_map]
      rfl
    rw [this]
    exact hnd
  obtain ⟨hcadre1, hvals1⟩ := executerLignes_stocks prix articles _ _ _ _ hexec
  have hvals1' := hvals1 harnd
  -- the lines stored on the sale
  have hlig' : v1.lignes = articles.map
      (fun it => (⟨it.1.produit, it.1.quantite, prix it.1.produit, it.1.remiseLigne⟩ : LigneVente)) := by
    rw [hlig, List.nil_append]
  -- cancellation succeeds and credits every line back
  have hndv : (v1.lignes.map (fun l => l.produit)).Nodup := by
    rw [hlig', List.map_map]
    exact harnd
  have hmag2 : v1.magasin = magasin := hmag
  have hid2 : v1.id = ref := hid
  have hamap : articles.map (fun it => it.1.produit) = lignes.map (fun l => l.produit) := by
    rw [← hmap, List.map_map]
    rfl
  obtain ⟨e2, hok2, hcadre2, hvals2⟩ := annulerLignes_restaure v1.id v1.magasin v1.lignes e1
    hndv
    (by
      intro lv hlv
      rw [hlig'] at hlv
      obtain ⟨it, hit, rfl⟩ := List.mem_map.mp hlv
      have hq1 : (1 : Int) ≤ it.1.quantite := by
        have hin : it.1 ∈ lignes := by
          rw [← hmap]
          exact List.mem_map_of_mem (fun it => it.1) hit
        exact (hval it.1 hin).1
      refine ⟨by show (0 : Int) ≤ it.1.quantite; omega, ?_⟩
      have hsnap2 : e1.stocks it.1.produit magasin =
          some { it.2.2 with quantite := it.2.2.quantite - it.1.quantite } := hvals1' it hit
      have hd := (hmem it hit).2
      rw [Stock.disponible] at hd
      refine ⟨{ it.2.2 with quantite := it.2.2.quantite - it.1.quantite }, ?_, ?_⟩
      · show e1.stocks it.1.produit v1.magasin = _
        rw [hmag2]
        exact hsnap2
      · show it.2.2.reservee ≤ it.2.2.quantite - it.1.quantite
        omega)
  have hannok : annulerVente v1 motif e1 =
      .ok (e2, { v1 with estAnnulee := true, statut := .ANNULEE, motifAnnulation := motif }) := by
    rw [annulerVente, hann]
    simp only [Bool.false_eq_true, if_false, hmotif]
    rw [hok2, bindOk]
  refine ⟨e1, v1, e2, _, hok, hannok, ?_⟩
  intro p m
  by_cases htouch : m = magasin ∧ p ∈ lignes.map (fun l => l.produit)
  · obtain ⟨hm, hp⟩ := htouch
    rw [hm]
    obtain ⟨l0, hl0, rfl⟩ := List.mem_map.mp hp
    have hlm : l0 ∈ articles.map (fun it => it.1) := by
      rw [hmap]
      exact hl0
    obtain ⟨it, hit, hfst⟩ := List.mem_map.mp hlm
    subst hfst
    have hlv : (⟨it.1.produit, it.1.quantite, prix it.1.produit, it.1.remiseLigne⟩ : LigneVente)
        ∈ v1.lignes := by
      rw [hlig']
      exact List.mem_map_of_mem _ hit
    obtain ⟨s', hs1, hs2⟩ := hvals2 _ hlv
    rw [hmag2] at hs1 hs2
    have hsnap2 : e1.stocks it.1.produit magasin =
        some { it.2.2 with quantite := it.2.2.quantite - it.1.quantite } := hvals1' it hit
    rw [hsnap2] at hs1
    injection hs1 with hs1'
    subst hs1'
    rw [quantiteEn, quantiteEn, hs2, (hmem it hit).1]
    show some (it.2.2.quantite - it.1.quantite + it.1.quantite) = some it.2.2.quantite
    exact congrArg some (by omega)
  · have hside : m ≠ magasin ∨ p ∉ lignes.map (fun l => l.produit) := by
      by_cases hm : m = magasin
      · exact Or.inr (fun hp => htouch ⟨hm, hp⟩)
      · exact Or.inl hm
    have hlmap : v1.lignes.map (fun l => l.produit) = lignes.map (fun l => l.produit) := by
      rw [hlig', List.map_map, ← hmap, List.map_map]
      rfl
    have hside2 : m ≠ v1.magasin ∨ p ∉ v1.lignes.map (fun l => l.produit) := by
      rw [hmag2, hlmap]
      exact hside
    have hf2 : e2.stocks p m = e1.stocks p m := hcadre2 p m hside2
    have hf1 : e1.stocks p m = e.stocks p m := hcadre1 p m
      (by
        rw [hamap]
        exact hside)
    rw [quantiteEn, quantiteEn, hf2, hf1]

/-- C1 witness: two lines of distinct products 1 and 5 (quantities 3 and 2)
against stocks of 10 and 8; creation then cancellation restores every
quantity. -/
theorem creer_puis_annuler_restaure_temoin :
    ∃ e1 v1 e2 v2, creerVente (fun _ => 100) 7 2 1000 0 [⟨1, 3, none, 0⟩, ⟨5, 2, none, 0⟩]
        (putStock (putStock etatVide 1 2 ⟨10, 0, none⟩) 5 2 ⟨8, 0, none⟩) = .ok (e1, v1) ∧
      annulerVente v1 "retour" e1 = .ok (e2, v2) ∧
      ∀ p m, quantiteEn e2 p m =
        quantiteEn (putStock (putStock etatVide 1 2 ⟨10, 0, none⟩) 5 2 ⟨8, 0, none⟩) p m :=
  creer_puis_annuler_restaure (fun _ => 100) 7 2 1000 0 [⟨1, 3, none, 0⟩, ⟨5, 2, none, 0⟩]
    "retour" (putStock (putStock etatVide 1 2 ⟨10, 0, none⟩) 5 2 ⟨8, 0, none⟩)
    (by decide) (by decide) (by decide) (by decide) (by decide)
    (by
      intro l hl
      fin_cases hl
      · exact ⟨⟨10, 0, none⟩, rfl, by decide⟩
      · exact ⟨⟨8, 0, none⟩, rfl, by decide⟩)
    (by decide)

theorem bindOk_inverse {α β : Type} {x : Except Err α} {k : α → Except Err β} {b : β}
    (h : (x >>= k) = .ok b) : ∃ a, x = .ok a ∧ k a = .ok b := by
  cases x with
  | error err => rw [bindErreur] at h; cases h
  | ok a => exact ⟨a, rfl, h⟩

theorem mapOk_inverse {α β : Type} {x : Except Err α} {f : α → β} {b : β}
    (h : x.map f = .ok b) : ∃ a, x = .ok a ∧ f a = b := by
  cases x with
  | error err => cases h
  | ok a =>
    injection h with h2
    exact ⟨a, rfl, h2⟩

/-- C3 counterexample: the single persistence guard of the code,
Stock.clean invoked by Stock.save, accepts a row holding quantity -5 and
reserved quantity -7 (since -7 is not greater than -5), although the claim
requires every mutation to verify that both values are nonnegative and to
abort on violation. -/
theorem garde_sans_nonnegativite_contre :
    saveStock etatVide 1 2 ⟨-5, -7, none⟩ = .ok (putStock etatVide 1 2 ⟨-5, -7, none⟩) ∧
    ((-5 : Int) < 0 ∧ (-7 : Int) < 0) := ⟨rfl, by decide⟩

/-- C3 (amended): the save guard only checks reserved <= quantity, not
nonnegativity; nevertheless every state reachable from an invariant
satisfying state through the public operations (stock create, update,
replenish, transfer, adjust, sale creation, sale cancellation) satisfies
0 <= reserved <= quantity on every row, because the serializer validations
guard the values the API can write and the ledger operations only move
nonnegative reserved values through the save guard. -/
theorem invariant_stock_preserve (o : Operation) (e e' : Etat)
    (he : Inv e) (h : appliquer o e = .ok e') : Inv e' := by
  cases o with
  | creer p m q =>
    simp only [appliquer, stockCreer] at h
    split at h
    · cases h
    · split at h
      · cases h
      · obtain ⟨e1, hsave, h⟩ := bindOk_inverse h
        cases h
        exact inv_ajoutMouvement (inv_saveStock he (by simp) hsave) _
  | modifier p m objQ objR =>
    simp only [appliquer, stockModifier] at h
    split at h
    · cases h
    · rename_i s hcase
      split at h
      · cases h
      · rename_i hneg
        split at h
        · cases h
        · refine inv_saveStock he ?_ h
          show 0 ≤ objR.getD s.reservee
          cases objR with
          | none => exact (he p m s hcase).1
          | some r =>
            simp only [Option.getD_some] at hneg ⊢
            omega
  | reappro p m q =>
    simp only [appliquer, reapprovisionner] at h
    split at h
    · cases h
    · obtain ⟨e1, hsave, h⟩ := bindOk_inverse h
      cases h
      refine inv_ajoutMouvement (inv_saveStock he ?_ hsave) _
      cases hd : e.stocks p m with
      | none => exact le_refl 0
      | some s => exact (he p m s hd).1
  | transfert p src dst q =>
    simp only [appliquer, transferer] at h
    split at h
    · cases h
    · split at h
      · cases h
      · split at h
        · cases h
        · rename_i s hcase
          split at h
          · cases h
          · obtain ⟨e1, hsave1, h⟩ := bindOk_inverse h
            obtain ⟨e3, hsave2, h⟩ := bindOk_inverse h
            cases h
            have he1 : Inv e1 := inv_saveStock he (by simpa using (he p src s hcase).1) hsave1
            refine inv_ajoutMouvement (inv_saveStock (inv_ajoutMouvement he1 _) ?_ hsave2) _
            cases hd : e1.stocks p dst with
            | none =>
              show 0 ≤ (((ajoutMouvement e1 _).stocks p dst).getD ⟨0, 0, none⟩).reservee
              rw [ajoutMouvement_stocks_app, hd]
              simp
            | some d =>
              show 0 ≤ (((ajoutMouvement e1 _).stocks p dst).getD ⟨0, 0, none⟩).reservee
              rw [ajoutMouvement_stocks_app, hd]
              exact (he1 p dst d hd).1
  | ajustement p m q maintenant =>
    simp only [appliquer, ajuster] at h
    split at h
    · cases h
    · rename_i s hcase
      split at h
      · cases h
      · obtain ⟨e1, hsave, h⟩ := bindOk_inverse h
        cases h
        exact inv_ajoutMouvement
          (inv_saveStock he (by simpa using (he p m s hcase).1) hsave) _
  | vendre prix ref magasin paye remise lignes =>
    rw [appliquer] at h
    obtain ⟨pr, hcv, rfl⟩ := mapOk_inverse h
    obtain ⟨articles, hver, hmap, hmem, hexec⟩ := creerVente_inverse hcv
    exact inv_executerLignes prix articles _ _ _ _ hexec he
      (fun it hit => (he it.1.produit magasin it.2.2 (hmem it hit).1).1)
  | annulation v motif =>
    rw [appliquer] at h
    obtain ⟨pr, hav, rfl⟩ := mapOk_inverse h
    rw [annulerVente] at hav
    split at hav
    · cases hav
    · split at hav
      · cases hav
      · obtain ⟨e1, hlignes, hav⟩ := bindOk_inverse hav
        cases hav
        exact inv_annulerLignes v.id v.magasin v.lignes e e1 hlignes he

/-- C3 witness: replenishing 5 units of product 1 into magasin 2 from the
empty state yields a state satisfying the invariant. -/
theorem invariant_stock_preserve_temoin :
    Inv (ajoutMouvement (putStock etatVide 1 2 ⟨5, 0, none⟩)
      ⟨.ENTREE, 5, 0, 5, 1, 2, none, none⟩) :=
  invariant_stock_preserve (.reappro 1 2 5) etatVide
    (ajoutMouvement (putStock etatVide 1 2 ⟨5, 0, none⟩)
      ⟨.ENTREE, 5, 0, 5, 1, 2, none, none⟩) inv_etatVide rfl

theorem chiffresAux_fuel : ∀ (f1 f2 n : Nat), n < f1 → n < f2 →
    chiffresAux f1 n = chiffresAux f2 n := by
  intro f1
  induction f1 with
  | zero => intro f2 n h1 _; omega
  | succ f ih =>
    intro f2 n h1 h2
    cases f2 with
    | zero => omega
    | succ g =>
      show chiffresAux (f + 1) n = chiffresAux (g + 1) n
      simp only [chiffresAux]
      by_cases hn : n < 10
      · simp [hn]
      · simp only [hn, if_false]
        rw [ih g (n / 10) (by omega) (by omega)]

theorem chiffres_petit {n : Nat} (h : n < 10) : chiffres n = [48 + n] := by
  simp [chiffres, chiffresAux, h]

theorem chiffres_grand {n : Nat} (h : ¬ n < 10) :
    chiffres n = chiffres (n / 10) ++ [48 + n % 10] := by
  show chiffresAux (n + 1) n = chiffresAux (n / 10 + 1) (n / 10) ++ [48 + n % 10]
  rw [show chiffresAux (n + 1) n =
    if n < 10 then [48 + n] else chiffresAux n (n / 10) ++ [48 + n % 10] from rfl]
  rw [if_neg h, chiffresAux_fuel n (n / 10 + 1) (n / 10) (by omega) (by omega)]

theorem pad4_forme {n : Nat} (h : n < 10000) :
    pad4 n = [48 + n / 1000, 48 + n / 100 % 10, 48 + n / 10 % 10, 48 + n % 10] := by
  by_cases h1 : n < 10
  · rw [pad4, chiffres_petit h1]
    simp only [List.length_cons, List.length_nil]
    show [48, 48, 48, 48 + n] = _
    simp only [List.cons.injEq, and_true]
    omega
  · by_cases h2 : n < 100
    · rw [pad4, chiffres_grand h1, chiffres_petit (show n / 10 < 10 by omega)]
      simp only [List.singleton_append, List.length_cons, List.length_nil]
      show [48, 48, 48 + n / 10, 48 + n % 10] = _
      simp only [List.cons.injEq, and_true]
      omega
    · by_cases h3 : n < 1000
      · rw [pad4, chiffres_grand h1, chiffres_grand (show ¬ n / 10 < 10 by omega),
          chiffres_petit (show n / 10 / 10 < 10 by omega)]
        simp only [List.singleton_append, List.cons_append, List.nil_append,
          List.length_cons, List.length_nil]
        show [48, 48 + n / 10 / 10, 48 + n / 10 % 10, 48 + n % 10] = _
        simp only [List.cons.injEq, and_true]
        omega
      · rw [pad4, chiffres_grand h1, chiffres_grand (show ¬ n / 10 < 10 by omega),
          chiffres_grand (show ¬ n / 10 / 10 < 10 by omega),
          chiffres_petit (show n / 10 / 10 / 10 < 10 by omega)]
        simp only [List.singleton_append, List.cons_append, List.nil_append,
          List.length_cons, List.length_nil]
        show [48 + n / 10 / 10 / 10, 48 + n / 10 / 10 % 10, 48 + n / 10 % 10, 48 + n % 10] = _
        simp only [List.cons.injEq, and_true]
        omega

theorem pad4_longueur {n : Nat} (h : n < 10000) : (pad4 n).length = 4 := by
  rw [pad4_forme h]
  rfl

theorem lexLt_motif (pref : List Nat) : ∀ a b : List Nat,
    lexLt (pref ++ a) (pref ++ b) = lexLt a b := by
  induction pref with
  | nil => intro a b; rfl
  | cons c cs ih =>
    intro a b
    show lexLt (c :: (cs ++ a)) (c :: (cs ++ b)) = _
    simp [lexLt, Nat.lt_irrefl, ih]

theorem lexChiffres {x3 x2 x1 x0 y3 y2 y1 y0 : Nat}
    (_hx3 : x3 < 10) (hx2 : x2 < 10) (hx1 : x1 < 10) (hx0 : x0 < 10)
    (_hy3 : y3 < 10) (hy2 : y2 < 10) (hy1 : y1 < 10) (hy0 : y0 < 10) :
    (lexLt [48 + x3, 48 + x2, 48 + x1, 48 + x0] [48 + y3, 48 + y2, 48 + y1, 48 + y0] = true) ↔
      1000 * x3 + 100 * x2 + 10 * x1 + x0 < 1000 * y3 + 100 * y2 + 10 * y1 + y0 := by
  simp only [lexLt, Bool.or_eq_true, Bool.and_eq_true, decide_eq_true_eq]
  constructor
  · rintro (h3 | ⟨e3, h2 | ⟨e2, h1 | ⟨e1, h0 | ⟨e0, ⟨⟩⟩⟩⟩⟩) <;> omega
  · intro h
    by_cases h3 : x3 < y3
    · exact Or.inl (by omega)
    · refine Or.inr ⟨by omega, ?_⟩
      by_cases h2 : x2 < y2
      · exact Or.inl (by omega)
      · refine Or.inr ⟨by omega, ?_⟩
        by_cases h1 : x1 < y1
        · exact Or.inl (by omega)
        · refine Or.inr ⟨by omega, ?_⟩
          exact Or.inl (by omega)

theorem lexLt_pad4 {a b : Nat} (ha : a < 10000) (hb : b < 10000) :
    (lexLt (pad4 a) (pad4 b) = true) ↔ a < b := by
  rw [pad4_forme ha, pad4_forme hb]
  rw [lexChiffres (by omega) (by omega) (by omega) (by omega)
    (by omega) (by omega) (by omega) (by omega)]
  omega

theorem foldl_max_ge : ∀ (K : List Nat) (a : Nat), a ≤ K.foldl Nat.max a := by
  intro K
  induction K with
  | nil => exact fun a => le_refl a
  | cons k0 K ih =>
    intro a
    exact le_trans (Nat.le_max_left a k0) (ih (Nat.max a k0))

theorem foldl_max_ge_mem : ∀ (K : List Nat) (a k : Nat), k ∈ K → k ≤ K.foldl Nat.max a := by
  intro K
  induction K with
  | nil => intro a k hk; cases hk
  | cons k0 K ih =>
    intro a k hk
    rcases List.mem_cons.mp hk with rfl | hk'
    · exact le_trans (Nat.le_max_right a k) (foldl_max_ge K (Nat.max a k))
    · exact ih (Nat.max a k0) k hk'

theorem foldl_max_le : ∀ (K : List Nat) (a b : Nat), a ≤ b → (∀ k ∈ K, k ≤ b) →
    K.foldl Nat.max a ≤ b := by
  intro K
  induction K with
  | nil => exact fun a b h _ => h
  | cons k0 K ih =>
    intro a b ha hk
    exact ih (Nat.max a k0) b (Nat.max_le.mpr ⟨ha, hk k0 (List.mem_cons_self _ _)⟩)
      (fun k hk' => hk k (List.mem_cons_of_mem _ hk'))

theorem maxLex_pick (date : List Nat) :
    ∀ (K : List Nat) (a : Nat), a < 10000 → (∀ k ∈ K, k < 10000) →
    (K.map (fun k => 86 :: date ++ pad4 k)).foldl
      (fun acc y => if lexLt acc y then y else acc) (86 :: date ++ pad4 a) =
    86 :: date ++ pad4 (K.foldl Nat.max a) := by
  intro K
  induction K with
  | nil => intro a _ _; rfl
  | cons k0 K ih =>
    intro a ha hK
    have hk0 : k0 < 10000 := hK k0 (List.mem_cons_self _ _)
    simp only [List.map_cons, List.foldl_cons]
    have hl : lexLt (86 :: date ++ pad4 a) (86 :: date ++ pad4 k0) = lexLt (pad4 a) (pad4 k0) :=
      lexLt_motif (86 :: date) (pad4 a) (pad4 k0)
    have hstep : (if lexLt (86 :: date ++ pad4 a) (86 :: date ++ pad4 k0) = true
        then 86 :: date ++ pad4 k0 else 86 :: date ++ pad4 a) =
        86 :: date ++ pad4 (Nat.max a k0) := by
      by_cases hab : a < k0
      · rw [if_pos (by rw [hl]; exact (lexLt_pad4 ha hk0).mpr hab)]
        exact congrArg (fun z => 86 :: date ++ pad4 z)
          (Nat.max_eq_right (Nat.le_of_lt hab)).symm
      · rw [if_neg (by rw [hl]; intro hc; exact hab ((lexLt_pad4 ha hk0).mp hc))]
        exact congrArg (fun z => 86 :: date ++ pad4 z)
          (Nat.max_eq_left (Nat.le_of_not_lt hab)).symm
    rw [hstep, ih (Nat.max a k0) (Nat.max_lt.mpr ⟨ha, hk0⟩)
      (fun k hk => hK k (List.mem_cons_of_mem _ hk))]

theorem valeurChiffres_pad4 {n : Nat} (h : n < 10000) : valeurChiffres (pad4 n) = n := by
  rw [pad4_forme h]
  show ((((0 * 10 + (48 + n / 1000 - 48)) * 10 + (48 + n / 100 % 10 - 48)) * 10 +
    (48 + n / 10 % 10 - 48)) * 10 + (48 + n % 10 - 48)) = n
  omega

theorem quatreDerniers_motif (date rest : List Nat) (h : rest.length = 4) :
    quatreDerniers (86 :: date ++ rest) = rest := by
  rw [quatreDerniers]
  have hlen : (86 :: date ++ rest).length - 4 = (86 :: date).length := by
    simp [h]
  rw [hlen]
  exact List.drop_left (86 :: date) rest

/-- C7 (amended): sale number assignment, for a day whose existing numbers
are exactly well formed numbers with sequences bounded by 9998 (fewer than
9999 sales that day). First conjunct: with m the maximal existing sequence
of the day, the generated number is V + date + the 4 character zero padded
m + 1, and it has the claimed shape. Second conjunct: with no sale for the
day, the sequence is 1. Third conjunct: a sale whose numero_vente is
already set keeps it unchanged on every later save, so the number is
assigned exactly once, at creation. (At m = 9999 the 04d format produces a
five character sequence and the shape is lost, which is what forces the
9998 bound: see the counterexample.) -/
theorem numero_vente_forme :
    (∀ (date : List Nat) (existants : List (List Nat)) (K : List Nat) (m : Nat),
      m ∈ K → (∀ k ∈ K, 1 ≤ k ∧ k ≤ m) → m ≤ 9998 →
      existants.filter (fun n => debutePar (86 :: date) n) =
        K.map (fun k => 86 :: date ++ pad4 k) →
      genNumero date existants = 86 :: date ++ pad4 (m + 1) ∧
        formeNumero date (genNumero date existants)) ∧
    (∀ (date : List Nat) (existants : List (List Nat)),
      existants.filter (fun n => debutePar (86 :: date) n) = [] →
      genNumero date existants = 86 :: date ++ pad4 1 ∧
        formeNumero date (genNumero date existants)) ∧
    (∀ (numero date : List Nat) (existants : List (List Nat)),
      numero ≠ [] → venteSaveNumero numero date existants = numero) := by
  refine ⟨?_, ?_, ?_⟩
  · intro date existants K m hm hK hb hf
    have heq : genNumero date existants = 86 :: date ++ pad4 (m + 1) := by
      simp only [genNumero]
      rw [hf]
      cases K with
      | nil => cases hm
      | cons k0 K' =>
        have hk0m : k0 ≤ m := (hK k0 (List.mem_cons_self _ _)).2
        simp only [List.map_cons, maxLex]
        rw [maxLex_pick date K' k0 (by omega)
          (fun k hk => by have := (hK k (List.mem_cons_of_mem _ hk)).2; omega)]
        have hmax : K'.foldl Nat.max k0 = m := by
          apply Nat.le_antisymm
          · exact foldl_max_le K' k0 m hk0m
              (fun k hk => (hK k (List.mem_cons_of_mem _ hk)).2)
          · rcases List.mem_cons.mp hm with rfl | hm'
            · exact foldl_max_ge K' m
            · exact foldl_max_ge_mem K' k0 m hm'
        rw [hmax, quatreDerniers_motif date (pad4 m) (pad4_longueur (by omega)),
          valeurChiffres_pad4 (by omega)]
    exact ⟨heq, m + 1, heq, pad4_longueur (by omega)⟩
  · intro date existants hf
    have heq : genNumero date existants = 86 :: date ++ pad4 1 := by
      simp only [genNumero]
      rw [hf]
      rfl
    exact ⟨heq, 1, heq, rfl⟩
  · intro numero date existants h
    rw [venteSaveNumero, if_neg h]

/-- C7 witness: date 20260101 with one foreign entry and one entry of
sequence 5 for the day: the next number is V202601010006, of the claimed
shape, and a sale already numbered keeps its number. -/
theorem numero_vente_forme_temoin :
    (genNumero [50, 48, 50, 54, 48, 49, 48, 49]
        [[99], 86 :: [50, 48, 50, 54, 48, 49, 48, 49] ++ pad4 5] =
      86 :: [50, 48, 50, 54, 48, 49, 48, 49] ++ pad4 6 ∧
      formeNumero [50, 48, 50, 54, 48, 49, 48, 49]
        (genNumero [50, 48, 50, 54, 48, 49, 48, 49]
          [[99], 86 :: [50, 48, 50, 54, 48, 49, 48, 49] ++ pad4 5])) ∧
    venteSaveNumero [86, 50] [50, 48, 50, 54, 48, 49, 48, 49] [] = [86, 50] := by
  constructor
  · exact numero_vente_forme.1 [50, 48, 50, 54, 48, 49, 48, 49]
      [[99], 86 :: [50, 48, 50, 54, 48, 49, 48, 49] ++ pad4 5] [5] 5
      (by decide) (by decide) (by decide) (by decide)
  · exact numero_vente_forme.2.2 [86, 50] [50, 48, 50, 54, 48, 49, 48, 49] [] (by decide)

/-- C7 counterexample: after the 9999th sale of a day the state holds a
number with sequence 9999; the next generated number is
V + date + 10000, a five character sequence, so it does not have the
claimed V + YYYYMMDD + 4 digit zero padded shape (its length is 14, a
well formed number has 13). -/
theorem numero_vente_depassement_contre :
    genNumero [50, 48, 50, 54, 48, 49, 48, 49]
        [86 :: [50, 48, 50, 54, 48, 49, 48, 49] ++ pad4 9999] =
      86 :: [50, 48, 50, 54, 48, 49, 48, 49] ++ pad4 10000 ∧
    (pad4 10000).length = 5 ∧
    ¬ formeNumero [50, 48, 50, 54, 48, 49, 48, 49]
      (genNumero [50, 48, 50, 54, 48, 49, 48, 49]
        [86 :: [50, 48, 50, 54, 48, 49, 48, 49] ++ pad4 9999]) := by
  refine ⟨rfl, rfl, ?_⟩
  rintro ⟨s, hn, hl⟩
  have hlen := congrArg List.length hn
  rw [show genNumero [50, 48, 50, 54, 48, 49, 48, 49]
      [86 :: [50, 48, 50, 54, 48, 49, 48, 49] ++ pad4 9999] =
    86 :: [50, 48, 50, 54, 48, 49, 48, 49] ++ pad4 10000 from rfl] at hlen
  have h5 : (pad4 10000).length = 5 := rfl
  simp only [List.length_cons, List.length_append, List.length_nil, hl, h5] at hlen
  omega

end GestionStock
